import Mathlib

/-
Verification development for the packaging-enclosure synthesizer
(`tools/packager.py` of the thingset repository).

The mesh data model and the `Packager` pipeline are shallowly embedded over
exact rationals (floating-point scalars of the source become `ℚ`; the numeric
literals `1e-12`, `0.1`, etc. are taken at their decimal value).  External
collaborators of the packager are passed as function parameters:

* `sp`   models `trimesh.Trimesh.compute_stable_poses` (pose enumeration is
  delegated to a geometry collaborator);
* `zrot` models `autolab_core.RigidTransform.z_axis_rotation` (a 3x3 rotation
  matrix about the z axis for a given angle);
* `tri`  models `triangle.triangulate(plsg, 'pc')['triangles']` (constrained
  2-D triangulation of the 7-point planar straight-line graph with a hole).

Everything else is translated directly from the source.
-/

set_option maxHeartbeats 1000000

namespace ThingsetPackager

/-- A 3-D point / vector with rational coordinates. -/
structure V3 where
  x : ℚ
  y : ℚ
  z : ℚ
deriving DecidableEq, Repr

/-- A triangular face: three vertex indices (a row of `mesh.faces`). -/
structure Face where
  a : ℕ
  b : ℕ
  c : ℕ
deriving DecidableEq, Repr

/-- A triangulated mesh: ordered vertex positions and triangular faces
(`trimesh.Trimesh(vertices, faces, process=False)`). -/
structure Mesh where
  vertices : List V3
  faces : List Face
deriving DecidableEq, Repr

/-- Vertex lookup `mesh.vertices[i]` (out-of-range reads return the origin;
    all meshes handled by the theorems have valid indices). -/
def vert (m : Mesh) (i : ℕ) : V3 := m.vertices.getD i ⟨0, 0, 0⟩

/-- The undirected key of an edge, as in `trimesh`'s `edges_sorted`. -/
def edgeKey (a b : ℕ) : ℕ × ℕ := (min a b, max a b)

/-- The three undirected edges of a face. -/
def faceEdges (f : Face) : List (ℕ × ℕ) :=
  [edgeKey f.a f.b, edgeKey f.b f.c, edgeKey f.c f.a]

/-- All (undirected, with multiplicity) edges of a face list. -/
def edgesOf (fs : List Face) : List (ℕ × ℕ) := (fs.map faceEdges).flatten

/-- Occurrence count of an edge key in an edge list. -/
def cnt (e : ℕ × ℕ) : List (ℕ × ℕ) → ℕ
  | [] => 0
  | x :: xs => (if x = e then 1 else 0) + cnt e xs

/-- `mesh.is_watertight`: every (undirected) edge is shared by exactly two
    faces, i.e. every row of `edges_sorted` occurs exactly twice. -/
def isWatertight (m : Mesh) : Bool :=
  (edgesOf m.faces).all (fun e => cnt e (edgesOf m.faces) == 2)

/-- Every face index points into the vertex sequence. -/
def faceValid (n : ℕ) (f : Face) : Bool :=
  decide (f.a < n) && decide (f.b < n) && decide (f.c < n)

/-- All faces of the mesh have valid vertex indices. -/
def validMesh (m : Mesh) : Bool := m.faces.all (faceValid m.vertices.length)

/-- Componentwise minimum. -/
def vmin (a b : V3) : V3 := ⟨min a.x b.x, min a.y b.y, min a.z b.z⟩

/-- Componentwise maximum. -/
def vmax (a b : V3) : V3 := ⟨max a.x b.x, max a.y b.y, max a.z b.z⟩

/-- Lower corner of the axis-aligned bounding box (`mesh.bounds[0]`). -/
def lowerB (m : Mesh) : V3 :=
  match m.vertices with
  | [] => ⟨0, 0, 0⟩
  | v :: vs => vs.foldl vmin v

/-- Upper corner of the axis-aligned bounding box (`mesh.bounds[1]`). -/
def upperB (m : Mesh) : V3 :=
  match m.vertices with
  | [] => ⟨0, 0, 0⟩
  | v :: vs => vs.foldl vmax v

/-- `mesh.extents`: upper bound minus lower bound, per axis. -/
def extentsOf (m : Mesh) : V3 :=
  ⟨(upperB m).x - (lowerB m).x, (upperB m).y - (lowerB m).y,
   (upperB m).z - (lowerB m).z⟩

/-- A 3x3 matrix (the rotation block of a homogeneous 4x4 transform). -/
structure M3 where
  m11 : ℚ
  m12 : ℚ
  m13 : ℚ
  m21 : ℚ
  m22 : ℚ
  m23 : ℚ
  m31 : ℚ
  m32 : ℚ
  m33 : ℚ
deriving DecidableEq, Repr

/-- The 3x3 identity. -/
def M3.id : M3 := ⟨1, 0, 0, 0, 1, 0, 0, 0, 1⟩

/-- Matrix-vector product. -/
def M3.mulV (A : M3) (v : V3) : V3 :=
  ⟨A.m11 * v.x + A.m12 * v.y + A.m13 * v.z,
   A.m21 * v.x + A.m22 * v.y + A.m23 * v.z,
   A.m31 * v.x + A.m32 * v.y + A.m33 * v.z⟩

/-- Matrix-matrix product. -/
def M3.mul (A B : M3) : M3 :=
  ⟨A.m11 * B.m11 + A.m12 * B.m21 + A.m13 * B.m31,
   A.m11 * B.m12 + A.m12 * B.m22 + A.m13 * B.m32,
   A.m11 * B.m13 + A.m12 * B.m23 + A.m13 * B.m33,
   A.m21 * B.m11 + A.m22 * B.m21 + A.m23 * B.m31,
   A.m21 * B.m12 + A.m22 * B.m22 + A.m23 * B.m32,
   A.m21 * B.m13 + A.m22 * B.m23 + A.m23 * B.m33,
   A.m31 * B.m11 + A.m32 * B.m21 + A.m33 * B.m31,
   A.m31 * B.m12 + A.m32 * B.m22 + A.m33 * B.m32,
   A.m31 * B.m13 + A.m32 * B.m23 + A.m33 * B.m33⟩

/-- A rigid (affine) transform: the 4x4 homogeneous matrices of the source,
    stored as linear block plus translation column. -/
structure TF where
  lin : M3
  tr : V3
deriving DecidableEq, Repr

/-- The identity transform (`np.eye(4)`). -/
def TF.id : TF := ⟨M3.id, ⟨0, 0, 0⟩⟩

/-- Apply a transform to a point. -/
def TF.apply (t : TF) (v : V3) : V3 :=
  let w := t.lin.mulV v
  ⟨w.x + t.tr.x, w.y + t.tr.y, w.z + t.tr.z⟩

/-- Composition `t1.dot(t2)` of homogeneous matrices. -/
def TF.comp (t1 t2 : TF) : TF :=
  ⟨t1.lin.mul t2.lin,
   let w := t1.lin.mulV t2.tr
   ⟨w.x + t1.tr.x, w.y + t1.tr.y, w.z + t1.tr.z⟩⟩

/-- `mesh.apply_transform(t)` as a value: vertices are transformed, the face
    array is untouched. -/
def applyTF (t : TF) (m : Mesh) : Mesh := ⟨m.vertices.map t.apply, m.faces⟩

/-- `mesh.apply_translation(t)` as a value. -/
def applyTranslation (t : V3) (m : Mesh) : Mesh :=
  ⟨m.vertices.map (fun v => ⟨v.x + t.x, v.y + t.y, v.z + t.z⟩), m.faces⟩

/-- z component of `cross(q - p, r - p)`: the (unnormalized) face normal of
    triangle `(p, q, r)` dotted with the z axis.  `trimesh.face_normals` is
    this vector normalized; only its sign is ever used by the packager. -/
def crossZ (p q r : V3) : ℚ :=
  (q.x - p.x) * (r.y - p.y) - (q.y - p.y) * (r.x - p.x)

/-- The ground-contact tolerance `1e-12` of the source. -/
def contactTol : ℚ := 1 / 10 ^ 12

/-- The contact-face test of `Packager._package` (line 114): some vertex of
    the triangle has `|z| < 1e-12`, and the face normal points downward
    (`dot(normal, [0,0,-1]) > 0`, i.e. negative z component). -/
def contactPred (m : Mesh) (f : Face) : Bool :=
  (decide (|(vert m f.a).z| < contactTol) || decide (|(vert m f.b).z| < contactTol) ||
    decide (|(vert m f.c).z| < contactTol)) &&
  decide (crossZ (vert m f.a) (vert m f.b) (vert m f.c) < 0)

/-- The `for i, tri in enumerate(mesh.triangles): ... break` scan. -/
def findContactAux (m : Mesh) : List Face → ℕ → Option ℕ
  | [], _ => none
  | f :: fs, k => if contactPred m f then some k else findContactAux m fs (k + 1)

/-- Index of the first ground-touching, downward-facing triangle. -/
def findContact (m : Mesh) : Option ℕ := findContactAux m m.faces 0

/-- Scalar triple product `det [p; q; r]`. -/
def det3 (p q r : V3) : ℚ :=
  p.x * (q.y * r.z - q.z * r.y) - p.y * (q.x * r.z - q.z * r.x) +
    p.z * (q.x * r.y - q.y * r.x)

/-- Six times the signed volume of the mesh (divergence theorem). -/
def sumDet (m : Mesh) : ℚ :=
  m.faces.foldl (fun s f => s + det3 (vert m f.a) (vert m f.b) (vert m f.c)) 0

/-- Determinant-weighted coordinate sums used by the centroid formula. -/
def sumDetW (m : Mesh) (coord : V3 → ℚ) : ℚ :=
  m.faces.foldl
    (fun s f =>
      s + det3 (vert m f.a) (vert m f.b) (vert m f.c) *
        (coord (vert m f.a) + coord (vert m f.b) + coord (vert m f.c))) 0

/-- `mesh.center_mass`: the volume centroid of the closed surface, by the
    divergence theorem (the formula trimesh's mass properties compute):
    `sum det*(p+q+r) / (4 * sum det)` per coordinate. -/
def centerMassOf (m : Mesh) : V3 :=
  ⟨sumDetW m V3.x / (4 * sumDet m), sumDetW m V3.y / (4 * sumDet m),
   sumDetW m V3.z / (4 * sumDet m)⟩

/-- The injectable uniform random source (§6 of the spec): a stream of unit
    samples and the current position. -/
structure Rng where
  src : ℕ → ℚ
  pos : ℕ

/-- One `np.random.uniform(lo, hi)` draw: consumes one unit sample. -/
def uniform (lo hi : ℚ) (r : Rng) : ℚ × Rng :=
  (lo + r.src r.pos * (hi - lo), ⟨r.src, r.pos + 1⟩)

/-- The packager configuration (the recognized options of the YAML config). -/
structure Cfg where
  min_border_width_pct : ℚ
  max_border_width_pct : ℚ
  min_tab_height_pct : ℚ
  max_tab_height_pct : ℚ
  min_depth : ℚ
  max_depth : ℚ
  offset : ℚ
  ext_limits : V3

/-- The sampled angles of the yaw loop: `theta = 0; while theta < np.pi:
    ... theta += 0.1` visits exactly `0, 0.1, ..., 3.1` (32 samples, since
    `3.1 < pi < 3.2`; the bound is proved in `thetas_while_pi`). -/
def thetas : List ℚ := (List.range 32).map (fun k => (k : ℚ) / 10)

/-- The minimal-z-extent scan of `_get_packaged_pose` (lines 62-68):
    `min_z = inf; min_tf = None; for tf in tfs: ... if z_ext < min_z: ...`
    (`none` in the first component plays `np.infty`). -/
def minHeightScan (m : Mesh) (tfs : List TF) : Option ℚ × Option TF :=
  tfs.foldl
    (fun acc tf =>
      let z := (extentsOf (applyTF tf m)).z
      match acc.1 with
      | none => (some z, some tf)
      | some mz => if z < mz then (some z, some tf) else acc)
    (none, none)

/-- The yaw-search loop of `_get_packaged_pose` (lines 74-87), folded over the
    candidate rotations built from the sampled angles: starts from
    `(np.eye(4), mesh.extents[0])` and updates on strict improvement only. -/
def rotSearch (m : Mesh) (rots : List TF) : TF × ℚ :=
  rots.foldl
    (fun best rot =>
      let xe := (extentsOf (applyTF rot m)).x
      if xe < best.2 then (rot, xe) else best)
    (TF.id, (extentsOf m).x)

/-- `Packager._get_packaged_pose`.  `sp` is `compute_stable_poses`, `zrot` is
    `RigidTransform.z_axis_rotation`.  When the pose list is empty the scan
    leaves `min_tf = None` and `mesh.apply_transform(None)` (line 71) raises a
    `TypeError`; that unhandled exception is modelled by the `Except.error`. -/
def _get_packaged_pose (sp : Mesh → List TF) (zrot : ℚ → M3) (mesh : Mesh) :
    Except String TF :=
  -- mesh = mesh.copy()  (value semantics: the copy is the same value)
  let tfs := sp mesh
  match (minHeightScan mesh tfs).2 with
  | none => Except.error "apply_transform of None"
  | some min_tf =>
    let posed := applyTF min_tf mesh
    let best := rotSearch posed (thetas.map (fun th => TF.mk (zrot th) ⟨0, 0, 0⟩))
    Except.ok (TF.comp best.1 min_tf)

/-- The ten box faces of lines 176-187 (before the `+ vo` shift). -/
def boxFaceList : List Face :=
  [⟨0, 5, 1⟩, ⟨0, 4, 5⟩, ⟨1, 6, 2⟩, ⟨1, 5, 6⟩, ⟨2, 7, 3⟩,
   ⟨2, 6, 7⟩, ⟨3, 4, 0⟩, ⟨3, 7, 4⟩, ⟨4, 7, 5⟩, ⟨5, 7, 6⟩]

/-- The index remap of lines 170-173: labels 4,5,6 of the triangulation are
    rewritten to `vinds - vo` (i.e. `-3,-2,-1`) and then everything is shifted
    by `vo`; so 4,5,6 land on the pedestal-top vertices `vo-3, vo-2, vo-1`
    and every other label `l` lands on `l + vo`. -/
def mapLbl (vo : ℕ) (l : ℕ) : ℕ :=
  if l = 4 then vo - 3 else if l = 5 then vo - 2 else if l = 6 then vo - 1 else l + vo

/-- The planar straight-line graph handed to `triangle.triangulate`:
    hole-ring segments, the seven 2-D vertices, and the hole seed point
    (the mean of the three pedestal vertices). -/
structure PSLG where
  segments : List (ℕ × ℕ)
  vertices2d : List (ℚ × ℚ)
  holePt : ℚ × ℚ

/-- The planar straight-line graph `_package` hands to the triangulator, as a
    function of the posed mesh, the contact index, and the derived margins. -/
def plsgOf (mesh : Mesh) (face_ind : ℕ) (border_width tab_height : ℚ) : PSLG :=
  let bl := lowerB mesh
  let bu := upperB mesh
  let xl := bl.x - border_width
  let xu := bu.x + border_width
  let yl := bl.y - border_width
  let yu := bu.y + border_width + tab_height
  let f := mesh.faces.getD face_ind ⟨0, 0, 0⟩
  let p0 := vert mesh f.a
  let p1 := vert mesh f.b
  let p2 := vert mesh f.c
  ⟨[(5, 4), (6, 5), (4, 6)],
   [(xl, yl), (xu, yl), (xu, yu), (xl, yu), (p0.x, p0.y), (p1.x, p1.y), (p2.x, p2.y)],
   ((p0.x + p1.x + p2.x) / 3, (p0.y + p1.y + p2.y) / 3)⟩

/-- `Packager._package` (lines 91-194), with the three external collaborators
    as parameters.  Returns `Except.ok none` for "not packable",
    `Except.ok (some mesh)` for success, `Except.error` for the raised
    exceptions. -/
def _package (sp : Mesh → List TF) (zrot : ℚ → M3) (tri : PSLG → List Face)
    (mesh0 : Mesh) (border_width_pct tab_height_pct depth offset : ℚ)
    (ext_limits : V3) : Except String (Option Mesh) :=
  -- mesh = mesh.copy()
  let mesh := mesh0
  match _get_packaged_pose sp zrot mesh with
  | Except.error e => Except.error e
  | Except.ok pose =>
    let mesh := applyTF pose mesh
    -- if np.any(extents > ext_limits): return None
    let extents := extentsOf mesh
    if extents.x > ext_limits.x ∨ extents.y > ext_limits.y ∨ extents.z > ext_limits.z then
      Except.ok none
    else
      let border_width := border_width_pct * (extentsOf mesh).x
      let tab_height := tab_height_pct * (extentsOf mesh).y
      let bl := lowerB mesh
      let bu := upperB mesh
      let xl := bl.x - border_width
      let xu := bu.x + border_width
      let yl := bl.y - border_width
      let yu := bu.y + border_width + tab_height
      let zl := -offset - depth
      let zu := -offset
      match findContact mesh with
      | none => Except.error "Malformed mesh"
      | some face_ind =>
        let f := mesh.faces.getD face_ind ⟨0, 0, 0⟩
        let vo := mesh.vertices.length
        let p0 := vert mesh f.a
        let p1 := vert mesh f.b
        let p2 := vert mesh f.c
        -- new_vertices = contact triangle with z set to zu
        let new_vertices := [V3.mk p0.x p0.y zu, V3.mk p1.x p1.y zu, V3.mk p2.x p2.y zu]
        let new_faces :=
          [Face.mk f.a f.b (1 + vo), Face.mk f.a (1 + vo) (0 + vo),
           Face.mk f.b f.c (2 + vo), Face.mk f.b (2 + vo) (1 + vo),
           Face.mk f.c f.a (0 + vo), Face.mk f.c (0 + vo) (2 + vo)]
        -- verts = vstack(vertices, new_vertices); faces = delete(vstack(faces, new_faces), face_ind)
        let mesh1 : Mesh :=
          ⟨mesh.vertices ++ new_vertices, (mesh.faces ++ new_faces).eraseIdx face_ind⟩
        let vo2 := mesh1.vertices.length
        let verts2d : List (ℚ × ℚ) :=
          [(xl, yl), (xu, yl), (xu, yu), (xl, yu), (p0.x, p0.y), (p1.x, p1.y), (p2.x, p2.y)]
        let plsg : PSLG :=
          ⟨[(5, 4), (6, 5), (4, 6)], verts2d,
           ((p0.x + p1.x + p2.x) / 3, (p0.y + p1.y + p2.y) / 3)⟩
        let tfaces :=
          (tri plsg).map (fun g => Face.mk (mapLbl vo2 g.a) (mapLbl vo2 g.b) (mapLbl vo2 g.c))
        let box_vertices :=
          [V3.mk xl yl zu, V3.mk xu yl zu, V3.mk xu yu zu, V3.mk xl yu zu,
           V3.mk xl yl zl, V3.mk xu yl zl, V3.mk xu yu zl, V3.mk xl yu zl]
        let box_faces := boxFaceList.map (fun g => Face.mk (g.a + vo2) (g.b + vo2) (g.c + vo2))
        let final : Mesh := ⟨mesh1.vertices ++ box_vertices, mesh1.faces ++ (tfaces ++ box_faces)⟩
        let cm := centerMassOf final
        Except.ok (some (applyTranslation ⟨-cm.x, -cm.y, -cm.z⟩ final))

/-- `Packager.package` (lines 38-54): watertightness precondition, the three
    uniform draws, then delegation to `_package`. -/
def package (sp : Mesh → List TF) (zrot : ℚ → M3) (tri : PSLG → List Face)
    (mesh : Mesh) (config : Cfg) (r : Rng) : Except String (Option Mesh) × Rng :=
  if isWatertight mesh then
    let s1 := uniform config.min_border_width_pct config.max_border_width_pct r
    let s2 := uniform config.min_tab_height_pct config.max_tab_height_pct s1.2
    let s3 := uniform config.min_depth config.max_depth s2.2
    (_package sp zrot tri mesh s1.1 s2.1 s3.1 config.offset config.ext_limits, s3.2)
  else
    (Except.error "Must have a watertight mesh to package it!", r)

/-! ### Concrete instances used by the scenario claims

A canonical unit cube (8 vertices, 12 triangular faces, centered at the
origin) with outward-facing winding, and concrete, contract-satisfying
instances of the three external collaborators. -/

/-- Half. -/
def hf : ℚ := 1 / 2

/-- The unit cube of the spec's concrete scenario: vertices 0-3 are the
    bottom square (z = -1/2), 4-7 the top square; all faces wind outward. -/
def unitCube : Mesh :=
  ⟨[⟨-hf, -hf, -hf⟩, ⟨hf, -hf, -hf⟩, ⟨hf, hf, -hf⟩, ⟨-hf, hf, -hf⟩,
    ⟨-hf, -hf, hf⟩, ⟨hf, -hf, hf⟩, ⟨hf, hf, hf⟩, ⟨-hf, hf, hf⟩],
   [⟨0, 2, 1⟩, ⟨0, 3, 2⟩,   -- bottom (normal -z)
    ⟨4, 5, 6⟩, ⟨4, 6, 7⟩,   -- top (normal +z)
    ⟨0, 1, 5⟩, ⟨0, 5, 4⟩,   -- front y = -1/2
    ⟨1, 2, 6⟩, ⟨1, 6, 5⟩,   -- right x = 1/2
    ⟨2, 3, 7⟩, ⟨2, 7, 6⟩,   -- back y = 1/2
    ⟨3, 0, 4⟩, ⟨3, 4, 7⟩]⟩  -- left x = -1/2

/-- A stable-pose enumerator for the cube: the canonical resting pose, a pure
    translation by `+1/2` along z, which rests the cube on the ground plane
    with its center of mass above the support polygon (the §4.1 contract). -/
def cubePoses : Mesh → List TF := fun _ => [⟨M3.id, ⟨0, 0, hf⟩⟩]

/-- A stable-pose enumerator returning no pose at all (used to exercise the
    empty-enumeration path). -/
def noPoses : Mesh → List TF := fun _ => []

/-- A stable-pose enumerator whose pose leaves the solid floating above the
    ground plane (a pose-computation failure upstream, §4.3). -/
def floatingPose : Mesh → List TF := fun _ => [⟨M3.id, ⟨0, 0, 1⟩⟩]

/-- A degenerate but orthogonal model of `z_axis_rotation`: every sampled
    angle is sent to the identity rotation (cos = 1, sin = 0). -/
def zrotId : ℚ → M3 := fun _ => M3.id

/-- The z-rotation matrix with given cosine/sine entries. -/
def zRotM (c s : ℚ) : M3 := ⟨c, -s, 0, s, c, 0, 0, 0, 1⟩

/-- The contract for the modelled `z_axis_rotation`: each produced matrix is a
    rotation about z, i.e. `zRotM c s` with `c^2 + s^2 = 1`. -/
def IsZRot (A : M3) : Prop := ∃ c s : ℚ, c ^ 2 + s ^ 2 = 1 ∧ A = zRotM c s

/-- A concrete triangulation of the square-with-triangular-hole planar graph
    (labels 0-3 the square corners, 4-6 the hole ring): seven triangles
    covering the square minus the hole. -/
def triConst : PSLG → List Face := fun _ =>
  [⟨0, 1, 6⟩, ⟨0, 6, 4⟩, ⟨1, 2, 5⟩, ⟨1, 5, 6⟩, ⟨2, 3, 5⟩, ⟨3, 4, 5⟩, ⟨3, 0, 4⟩]

/-- The box faces relabelled over the abstract top-face label set: top square
    corners keep labels 0-3 (shared with the triangulation's outer square),
    the bottom corners get labels 7-10.  Together with the triangulation and
    the hole triangle `⟨4,5,6⟩` these close the new surface. -/
def boxRel : List Face :=
  [⟨0, 8, 1⟩, ⟨0, 7, 8⟩, ⟨1, 9, 2⟩, ⟨1, 8, 9⟩, ⟨2, 10, 3⟩,
   ⟨2, 9, 10⟩, ⟨3, 7, 0⟩, ⟨3, 10, 7⟩, ⟨7, 10, 8⟩, ⟨8, 10, 9⟩]

/-- The interface contract of `triangle.triangulate(plsg, 'pc')` (§4.4 of the
    spec): the output triangulates the square-with-hole region over the seven
    input points (labels < 7, no Steiner points for this unrefined 'pc' call),
    its boundary edges being exactly the square edges (once each) and the hole
    ring (once each), every interior edge shared by two triangles.  This is
    captured by: the output, closed off with the hole triangle and the
    (relabelled) rest of the box, has every edge shared by exactly two faces. -/
def TriContract (T : List Face) : Prop :=
  (∀ g ∈ T, g.a < 7 ∧ g.b < 7 ∧ g.c < 7) ∧
  (∀ e ∈ edgesOf (T ++ [⟨4, 5, 6⟩] ++ boxRel),
     cnt e (edgesOf (T ++ [⟨4, 5, 6⟩] ++ boxRel)) = 2)

/-- The spec's concrete-scenario configuration: degenerate sampling ranges
    `border_width_pct = 0.1`, `tab_height_pct = 0.1`, `depth = 0.02`,
    `offset = 0.01`, `ext_limits = [10,10,10]`. -/
def cfgCube : Cfg :=
  ⟨1/10, 1/10, 1/10, 1/10, 1/50, 1/50, 1/100, ⟨10, 10, 10⟩⟩

/-- The rejection-scenario configuration: `ext_limits = [0.5, 10, 10]`. -/
def cfgTight : Cfg :=
  ⟨1/10, 1/10, 1/10, 1/10, 1/50, 1/50, 1/100, ⟨1/2, 10, 10⟩⟩

/-- A concrete random stream (all unit samples 0; the scenario ranges are
    degenerate so the draws' values are immaterial). -/
def rng0 : Rng := ⟨fun _ => 0, 0⟩

/-- A single free-standing triangle: not watertight. -/
def openTri : Mesh := ⟨[⟨0, 0, 0⟩, ⟨1, 0, 0⟩, ⟨0, 1, 0⟩], [⟨0, 1, 2⟩]⟩

/-- Extract the mesh of a successful packaging result (empty mesh otherwise). -/
def getMeshD : Except String (Option Mesh) → Mesh
  | Except.ok (some m) => m
  | _ => ⟨[], []⟩

/-- The concrete packaged mesh produced by the unit-cube scenario run. -/
def cubePackaged : Mesh :=
  getMeshD (package cubePoses zrotId triConst unitCube cfgCube rng0).1

/-! ### Object-level (heap) model of the packager

To talk about mutation of the caller's mesh object, Python objects are
modelled explicitly: a heap of meshes addressed by integer references.
`mesh.copy()` and `trimesh.Trimesh(...)` allocate a fresh reference;
`apply_transform` / `apply_translation` mutate their receiver in place.
The functions below re-trace `package` line by line at this level. -/

/-- A heap of mesh objects. -/
abbrev Heap : Type := List Mesh

/-- Dereference (missing references read as an empty mesh). -/
def hread (h : Heap) (r : ℕ) : Mesh := List.getD h r ⟨[], []⟩

/-- In-place mutation of the object at `r`. -/
def hwrite (h : Heap) (r : ℕ) (m : Mesh) : Heap := List.set h r m

/-- Allocation: returns the new heap and the fresh reference. -/
def halloc (h : Heap) (m : Mesh) : Heap × ℕ := (h ++ [m], List.length h)

/-- One iteration of the stable-pose loop at heap level (lines 63-68): copy
    the working mesh, transform the copy in place, compare its z extent. -/
def poseStepH (rm : ℕ) (st : (Option ℚ × Option TF) × Heap) (tf : TF) :
    (Option ℚ × Option TF) × Heap :=
  let b := halloc st.2 (hread st.2 rm)            -- m = mesh.copy()
  let h2 := hwrite b.1 b.2 (applyTF tf (hread b.1 b.2))  -- .apply_transform(tf)
  let z := (extentsOf (hread h2 b.2)).z
  match st.1.1 with
  | none => ((some z, some tf), h2)
  | some mz => if z < mz then ((some z, some tf), h2) else (st.1, h2)

/-- One iteration of the yaw loop at heap level (lines 78-87). -/
def rotStepH (zrot : ℚ → M3) (rm : ℕ) (st : (TF × ℚ) × Heap) (th : ℚ) :
    (TF × ℚ) × Heap :=
  let rot : TF := ⟨zrot th, ⟨0, 0, 0⟩⟩
  let b := halloc st.2 (hread st.2 rm)            -- m = mesh.copy()
  let h2 := hwrite b.1 b.2 (applyTF rot (hread b.1 b.2))
  let xe := (extentsOf (hread h2 b.2)).x
  ((if xe < st.1.2 then (rot, xe) else st.1), h2)

/-- `Packager._get_packaged_pose` at heap level: the entry copy (line 58), one
    transformed temporary copy per candidate pose (line 64), the in-place
    transform of the working copy (line 71), and one temporary copy per
    sampled yaw angle (lines 81-82). -/
def _get_packaged_poseH (sp : Mesh → List TF) (zrot : ℚ → M3) (h0 : Heap)
    (r : ℕ) : (Except String TF) × Heap :=
  let a := halloc h0 (hread h0 r)                 -- mesh = mesh.copy()
  let rm := a.2
  let tfs := sp (hread a.1 rm)                    -- mesh.compute_stable_poses()
  let st := tfs.foldl (poseStepH rm) ((none, none), a.1)
  match st.1.2 with
  | none => (Except.error "apply_transform of None", st.2)
  | some min_tf =>
    let h3 := hwrite st.2 rm (applyTF min_tf (hread st.2 rm))  -- line 71
    let st2 := thetas.foldl (rotStepH zrot rm) ((TF.id, (extentsOf (hread h3 rm)).x), h3)
    (Except.ok (TF.comp st2.1.1 min_tf), st2.2)

/-- `Packager._package` at heap level: the entry copy (line 92), the in-place
    transform (line 95), the two `trimesh.Trimesh` allocations (lines 137 and
    192), and the in-place recentring translation (line 193).  The result is
    a reference to the freshly allocated output mesh. -/
def _packageH (sp : Mesh → List TF) (zrot : ℚ → M3) (tri : PSLG → List Face)
    (h0 : Heap) (r : ℕ) (border_width_pct tab_height_pct depth offset : ℚ)
    (ext_limits : V3) : (Except String (Option ℕ)) × Heap :=
  let a := halloc h0 (hread h0 r)                 -- mesh = mesh.copy()
  let rm := a.2
  match _get_packaged_poseH sp zrot a.1 rm with
  | (Except.error e, h1) => (Except.error e, h1)
  | (Except.ok pose, h1) =>
    let h2 := hwrite h1 rm (applyTF pose (hread h1 rm))  -- mesh.apply_transform(pose)
    let mesh := hread h2 rm
    let extents := extentsOf mesh
    if extents.x > ext_limits.x ∨ extents.y > ext_limits.y ∨ extents.z > ext_limits.z then
      (Except.ok none, h2)
    else
      let border_width := border_width_pct * (extentsOf mesh).x
      let tab_height := tab_height_pct * (extentsOf mesh).y
      let bl := lowerB mesh
      let bu := upperB mesh
      let xl := bl.x - border_width
      let xu := bu.x + border_width
      let yl := bl.y - border_width
      let yu := bu.y + border_width + tab_height
      let zl := -offset - depth
      let zu := -offset
      match findContact mesh with
      | none => (Except.error "Malformed mesh", h2)
      | some face_ind =>
        let f := mesh.faces.getD face_ind ⟨0, 0, 0⟩
        let vo := mesh.vertices.length
        let p0 := vert mesh f.a
        let p1 := vert mesh f.b
        let p2 := vert mesh f.c
        let new_vertices := [V3.mk p0.x p0.y zu, V3.mk p1.x p1.y zu, V3.mk p2.x p2.y zu]
        let new_faces :=
          [Face.mk f.a f.b (1 + vo), Face.mk f.a (1 + vo) (0 + vo),
           Face.mk f.b f.c (2 + vo), Face.mk f.b (2 + vo) (1 + vo),
           Face.mk f.c f.a (0 + vo), Face.mk f.c (0 + vo) (2 + vo)]
        let b := halloc h2                         -- mesh = trimesh.Trimesh(...)
          ⟨mesh.vertices ++ new_vertices, (mesh.faces ++ new_faces).eraseIdx face_ind⟩
        let mesh1 := hread b.1 b.2
        let vo2 := mesh1.vertices.length
        let verts2d : List (ℚ × ℚ) :=
          [(xl, yl), (xu, yl), (xu, yu), (xl, yu), (p0.x, p0.y), (p1.x, p1.y), (p2.x, p2.y)]
        let plsg : PSLG :=
          ⟨[(5, 4), (6, 5), (4, 6)], verts2d,
           ((p0.x + p1.x + p2.x) / 3, (p0.y + p1.y + p2.y) / 3)⟩
        let tfaces :=
          (tri plsg).map (fun g => Face.mk (mapLbl vo2 g.a) (mapLbl vo2 g.b) (mapLbl vo2 g.c))
        let box_vertices :=
          [V3.mk xl yl zu, V3.mk xu yl zu, V3.mk xu yu zu, V3.mk xl yu zu,
           V3.mk xl yl zl, V3.mk xu yl zl, V3.mk xu yu zl, V3.mk xl yu zl]
        let box_faces := boxFaceList.map (fun g => Face.mk (g.a + vo2) (g.b + vo2) (g.c + vo2))
        let c := halloc b.1                        -- mesh = trimesh.Trimesh(...)
          ⟨mesh1.vertices ++ box_vertices, mesh1.faces ++ (tfaces ++ box_faces)⟩
        let cm := centerMassOf (hread c.1 c.2)
        let h3 := hwrite c.1 c.2                   -- mesh.apply_translation(-cm)
          (applyTranslation ⟨-cm.x, -cm.y, -cm.z⟩ (hread c.1 c.2))
        (Except.ok (some c.2), h3)

/-- `Packager.package` at heap level. -/
def packageH (sp : Mesh → List TF) (zrot : ℚ → M3) (tri : PSLG → List Face)
    (h0 : Heap) (r : ℕ) (config : Cfg) (rng : Rng) :
    ((Except String (Option ℕ)) × Heap) × Rng :=
  if isWatertight (hread h0 r) then
    let s1 := uniform config.min_border_width_pct config.max_border_width_pct rng
    let s2 := uniform config.min_tab_height_pct config.max_tab_height_pct s1.2
    let s3 := uniform config.min_depth config.max_depth s2.2
    (_packageH sp zrot tri h0 r s1.1 s2.1 s3.1 config.offset config.ext_limits, s3.2)
  else
    ((Except.error "Must have a watertight mesh to package it!", h0), rng)

/-- Heap preservation below a watermark: every object with reference `< n`
    reads the same in both heaps. -/
def Pres (n : ℕ) (h h' : Heap) : Prop := ∀ j, j < n → hread h' j = hread h j

/-- Relabelling of face indices. -/
def faceMap (φ : ℕ → ℕ) (g : Face) : Face := ⟨φ g.a, φ g.b, φ g.c⟩

/-- Relabelling of an (undirected) edge key. -/
def eMap (φ : ℕ → ℕ) (e : ℕ × ℕ) : ℕ × ℕ := edgeKey (φ e.1) (φ e.2)

/-- First-strict-minimum scan: the running-minimum pattern shared by the
    stable-pose loop and the yaw-search loop. -/
def scanMin {α : Type} (v : α → ℚ) (acc : α) : List α → α
  | [] => acc
  | x :: xs => scanMin v (if v x < v acc then x else acc) xs

/-- The pedestal side walls as built at lines 125-132 of the source,
    parameterized by the contact face and the pre-extrusion vertex count. -/
def prismOf (cf : Face) (nv : ℕ) : List Face :=
  [⟨cf.a, cf.b, 1 + nv⟩, ⟨cf.a, 1 + nv, 0 + nv⟩, ⟨cf.b, cf.c, 2 + nv⟩,
   ⟨cf.b, 2 + nv, 1 + nv⟩, ⟨cf.c, cf.a, 0 + nv⟩, ⟨cf.c, 0 + nv, 2 + nv⟩]

/-- The pedestal walls over abstract labels: 0,1,2 the contact triangle,
    3,4,5 its lifted copy. -/
def prismP : List Face :=
  [⟨0, 1, 4⟩, ⟨0, 4, 3⟩, ⟨1, 2, 5⟩, ⟨1, 5, 4⟩, ⟨2, 0, 3⟩, ⟨2, 3, 5⟩]

/-- Label embedding for the pedestal: 0,1,2 to the contact-face indices,
    3,4,5 to the three freshly appended vertices. -/
def hMap (a b c nv : ℕ) : ℕ → ℕ := fun l =>
  if l = 0 then a else if l = 1 then b else if l = 2 then c else nv + l - 3

/-- Label embedding for the new top-face complex: hole labels 4,5,6 to the
    pedestal-top vertices `nv..nv+2`; square labels 0-3 to the box top corners
    `nv+3..nv+6`; bottom labels 7-10 to the box bottom corners `nv+7..nv+10`. -/
def gMap (nv : ℕ) : ℕ → ℕ := fun l =>
  if l = 4 then nv else if l = 5 then nv + 1 else if l = 6 then nv + 2
  else if l ≤ 3 then nv + 3 + l else nv + l

/-- The face list assembled by `_package`, abstracted over the input faces,
    the contact index, the input vertex count, and the triangulation output. -/
def assembledFaces (F : List Face) (i nv : ℕ) (T : List Face) : List Face :=
  (F ++ prismOf (F.getD i ⟨0, 0, 0⟩) nv).eraseIdx i ++
    (T.map (fun g => Face.mk (mapLbl (nv + 3) g.a) (mapLbl (nv + 3) g.b) (mapLbl (nv + 3) g.c)) ++
      boxFaceList.map (fun g => Face.mk (g.a + (nv + 3)) (g.b + (nv + 3)) (g.c + (nv + 3))))

instance : DecidablePred TriContract := fun T => by
  unfold TriContract; infer_instance

/-! ### Generic lemmas about edges and counts -/

lemma edgeKey_comm (a b : ℕ) : edgeKey a b = edgeKey b a := by
  simp [edgeKey, Nat.min_comm, Nat.max_comm]

lemma edgeKey_fst_le_snd (a b : ℕ) : (edgeKey a b).1 ≤ (edgeKey a b).2 := by
  simp only [edgeKey]; omega

lemma edgeKey_eq_iff {a b u v : ℕ} :
    edgeKey a b = edgeKey u v ↔ (a = u ∧ b = v) ∨ (a = v ∧ b = u) := by
  simp only [edgeKey, Prod.mk.injEq]; omega

lemma cnt_append (e : ℕ × ℕ) (l₁ l₂ : List (ℕ × ℕ)) :
    cnt e (l₁ ++ l₂) = cnt e l₁ + cnt e l₂ := by
  induction l₁ with
  | nil => simp [cnt]
  | cons x xs ih => simp [cnt, ih]; omega

lemma cnt_eq_zero_iff {e : ℕ × ℕ} {l : List (ℕ × ℕ)} : cnt e l = 0 ↔ e ∉ l := by
  induction l with
  | nil => simp [cnt]
  | cons x xs ih =>
    rcases eq_or_ne x e with rfl | h
    · simp [cnt]
    · have h' : e ≠ x := fun hh => h hh.symm
      simp [cnt, if_neg h, ih, h']

lemma cnt_pos_of_mem {e : ℕ × ℕ} {l : List (ℕ × ℕ)} (h : e ∈ l) : 0 < cnt e l := by
  rcases Nat.eq_zero_or_pos (cnt e l) with h0 | h0
  · exact absurd h (cnt_eq_zero_iff.mp h0)
  · exact h0


lemma edgesOf_nil : edgesOf [] = [] := rfl

lemma edgesOf_cons (f : Face) (fs : List Face) :
    edgesOf (f :: fs) = faceEdges f ++ edgesOf fs := by
  simp [edgesOf]

lemma edgesOf_append (l₁ l₂ : List Face) :
    edgesOf (l₁ ++ l₂) = edgesOf l₁ ++ edgesOf l₂ := by
  simp [edgesOf]

lemma mem_edgesOf {e : ℕ × ℕ} {fs : List Face} :
    e ∈ edgesOf fs ↔ ∃ f ∈ fs, e ∈ faceEdges f := by
  simp [edgesOf]

lemma mem_faceEdges_sorted {e : ℕ × ℕ} {f : Face} (h : e ∈ faceEdges f) :
    e.1 ≤ e.2 := by
  simp [faceEdges] at h
  rcases h with h | h | h <;> subst h <;> exact edgeKey_fst_le_snd _ _

lemma mem_edgesOf_sorted {e : ℕ × ℕ} {fs : List Face} (h : e ∈ edgesOf fs) :
    e.1 ≤ e.2 := by
  rcases mem_edgesOf.mp h with ⟨f, _, he⟩
  exact mem_faceEdges_sorted he

lemma mem_faceEdges_comps {e : ℕ × ℕ} {f : Face} (h : e ∈ faceEdges f) :
    (e.1 = f.a ∨ e.1 = f.b ∨ e.1 = f.c) ∧ (e.2 = f.a ∨ e.2 = f.b ∨ e.2 = f.c) := by
  simp only [faceEdges, List.mem_cons, List.not_mem_nil, or_false] at h
  rcases h with h | h | h <;> subst h <;> simp only [edgeKey] <;> omega

/-- An edge list all of whose faces have every index `< k` contains no edge
    with an endpoint `≥ k`. -/
lemma cnt_edges_zero_hi {fs : List Face} {k : ℕ}
    (h : ∀ f ∈ fs, f.a < k ∧ f.b < k ∧ f.c < k) {e : ℕ × ℕ} (he : k ≤ e.2) :
    cnt e (edgesOf fs) = 0 := by
  rw [cnt_eq_zero_iff]
  intro hmem
  rcases mem_edgesOf.mp hmem with ⟨f, hf, hfe⟩
  rcases h f hf with ⟨h1, h2, h3⟩
  rcases (mem_faceEdges_comps hfe).2 with h' | h' | h' <;> omega

/-- An edge list all of whose faces have every index `≥ k` contains no edge
    with an endpoint `< k`. -/
lemma cnt_edges_zero_lo {fs : List Face} {k : ℕ}
    (h : ∀ f ∈ fs, k ≤ f.a ∧ k ≤ f.b ∧ k ≤ f.c) {e : ℕ × ℕ} (he : e.1 < k) :
    cnt e (edgesOf fs) = 0 := by
  rw [cnt_eq_zero_iff]
  intro hmem
  rcases mem_edgesOf.mp hmem with ⟨f, hf, hfe⟩
  rcases h f hf with ⟨h1, h2, h3⟩
  rcases (mem_faceEdges_comps hfe).1 with h' | h' | h' <;> omega

lemma eMap_edgeKey (φ : ℕ → ℕ) (a b : ℕ) :
    eMap φ (edgeKey a b) = edgeKey (φ a) (φ b) := by
  rcases le_total a b with h | h
  · simp [eMap, edgeKey, Nat.min_eq_left h, Nat.max_eq_right h]
  · rw [edgeKey_comm a b, edgeKey_comm (φ a) (φ b)]
    simp [eMap, edgeKey, Nat.min_eq_left h, Nat.max_eq_right h]

lemma faceEdges_faceMap (φ : ℕ → ℕ) (g : Face) :
    faceEdges (faceMap φ g) = (faceEdges g).map (eMap φ) := by
  simp [faceEdges, faceMap, eMap_edgeKey]

lemma edgesOf_map (φ : ℕ → ℕ) (fs : List Face) :
    edgesOf (fs.map (faceMap φ)) = (edgesOf fs).map (eMap φ) := by
  induction fs with
  | nil => rfl
  | cons f fs ih =>
    simp only [List.map_cons, edgesOf_cons, ih, List.map_append, faceEdges_faceMap]

/-- Counting is preserved by an injective relabelling, over lists of sorted
    edge keys. -/
lemma cnt_map_eMap {φ : ℕ → ℕ} (hφ : Function.Injective φ) {e : ℕ × ℕ}
    (he : e.1 ≤ e.2) {l : List (ℕ × ℕ)} (hl : ∀ x ∈ l, x.1 ≤ x.2) :
    cnt (eMap φ e) (l.map (eMap φ)) = cnt e l := by
  induction l with
  | nil => rfl
  | cons x xs ih =>
    have hx : x.1 ≤ x.2 := hl x (List.mem_cons_self x xs)
    have hxs : ∀ y ∈ xs, y.1 ≤ y.2 := fun y hy => hl y (List.mem_cons_of_mem x hy)
    have hiff : eMap φ x = eMap φ e ↔ x = e := by
      constructor
      · intro hxe
        have := edgeKey_eq_iff.mp hxe
        rcases this with ⟨h1, h2⟩ | ⟨h1, h2⟩
        · exact Prod.ext (hφ h1) (hφ h2)
        · have e1 : x.1 = e.2 := hφ h1
          have e2 : x.2 = e.1 := hφ h2
          have : x.1 = x.2 := by omega
          exact Prod.ext (by omega) (by omega)
      · intro hxe; rw [hxe]
    simp only [List.map_cons, cnt, hiff, ih hxs]

/-- A mesh's watertightness predicate, in propositional form. -/
lemma isWatertight_iff {m : Mesh} :
    isWatertight m = true ↔ ∀ e ∈ edgesOf m.faces, cnt e (edgesOf m.faces) = 2 := by
  simp [isWatertight, List.all_eq_true]

/-! ### The first-strict-minimum scans -/

/-- Vertical extent of the solid once a candidate pose is applied. -/
def zExtAfter (m : Mesh) (tf : TF) : ℚ := (extentsOf (applyTF tf m)).z

/-- Horizontal (x) extent of the solid once a candidate rotation is applied. -/
def xExtAfter (m : Mesh) (tf : TF) : ℚ := (extentsOf (applyTF tf m)).x

lemma TF.apply_id (v : V3) : TF.id.apply v = v := by
  cases v
  simp [TF.apply, TF.id, M3.id, M3.mulV]

lemma applyTF_id (m : Mesh) : applyTF TF.id m = m := by
  cases m with
  | mk vs fs =>
    have h : TF.id.apply = fun v => v := funext TF.apply_id
    simp [applyTF, h]

/-- The running-minimum scan lands on the first element (the seed counting as
    index 0) attaining the minimum value: it is a minimizer, and every element
    strictly before it has strictly larger value. -/
lemma scanMin_spec {α : Type} (v : α → ℚ) :
    ∀ (l : List α) (acc : α),
      ∃ j, ∃ hj : j < (acc :: l).length,
        scanMin v acc l = (acc :: l).get ⟨j, hj⟩ ∧
        (∀ a ∈ acc :: l, v (scanMin v acc l) ≤ v a) ∧
        (∀ a ∈ (acc :: l).take j, v (scanMin v acc l) < v a) := by
  intro l
  induction l with
  | nil =>
    intro acc
    refine ⟨0, by simp, by simp [scanMin], ?_, by simp⟩
    intro a ha
    simp at ha
    simp [scanMin, ha]
  | cons x xs ih =>
    intro acc
    by_cases h : v x < v acc
    · rcases ih x with ⟨j', hj', hres, hmin, hstrict⟩
      have hsc : scanMin v acc (x :: xs) = scanMin v x xs := by
        simp [scanMin, if_pos h]
      have hjlen : j' + 1 < (acc :: x :: xs).length := by
        simp at hj' ⊢; omega
      refine ⟨j' + 1, hjlen, ?_, ?_, ?_⟩
      · rw [hsc, hres, List.get_cons_succ]
      · intro a ha
        rcases List.mem_cons.mp ha with hx | ha'
        · have h1 : v (scanMin v x xs) ≤ v x := hmin x (List.mem_cons_self x xs)
          rw [hsc, hx]; linarith
        · rw [hsc]; exact hmin a ha'
      · intro a ha
        rw [List.take_succ_cons] at ha
        rcases List.mem_cons.mp ha with hx | ha'
        · have h1 : v (scanMin v x xs) ≤ v x := hmin x (List.mem_cons_self x xs)
          rw [hsc, hx]; linarith
        · rw [hsc]; exact hstrict a ha'
    · rcases ih acc with ⟨j', hj', hres, hmin, hstrict⟩
      have hsc : scanMin v acc (x :: xs) = scanMin v acc xs := by
        simp [scanMin, if_neg h]
      rcases Nat.eq_zero_or_pos j' with rfl | hj'pos
      · refine ⟨0, by simp, ?_, ?_, by simp⟩
        · rw [hsc, hres]
          rfl
        · intro a ha
          rcases List.mem_cons.mp ha with hx | ha'
          · rw [hsc, hx]
            exact hmin acc (List.mem_cons_self acc xs)
          · rcases List.mem_cons.mp ha' with hx | ha''
            · have h1 : v (scanMin v acc xs) ≤ v acc :=
                hmin acc (List.mem_cons_self acc xs)
              rw [hsc, hx]; push_neg at h; linarith
            · rw [hsc]; exact hmin a (List.mem_cons_of_mem acc ha'')
      · obtain ⟨i, rfl⟩ : ∃ i, j' = i + 1 := ⟨j' - 1, by omega⟩
        have hlen : i + 2 < (acc :: x :: xs).length := by
          simp at hj' ⊢; omega
        refine ⟨i + 2, hlen, ?_, ?_, ?_⟩
        · rw [hsc, hres, List.get_cons_succ, List.get_cons_succ, List.get_cons_succ]
        · intro a ha
          rcases List.mem_cons.mp ha with hx | ha'
          · rw [hsc, hx]
            exact hmin acc (List.mem_cons_self acc xs)
          · rcases List.mem_cons.mp ha' with hx | ha''
            · have h1 : v (scanMin v acc xs) ≤ v acc :=
                hmin acc (List.mem_cons_self acc xs)
              rw [hsc, hx]; push_neg at h; linarith
            · rw [hsc]; exact hmin a (List.mem_cons_of_mem acc ha'')
        · intro a ha
          rw [List.take_succ_cons, List.take_succ_cons] at ha
          have hacc : v (scanMin v acc xs) < v acc := by
            apply hstrict
            rw [List.take_succ_cons]
            exact List.mem_cons_self acc _
          rcases List.mem_cons.mp ha with hx | ha'
          · rw [hsc, hx]; exact hacc
          · rcases List.mem_cons.mp ha' with hx | ha''
            · rw [hsc, hx]; push_neg at h; linarith
            · rw [hsc]
              apply hstrict
              rw [List.take_succ_cons]
              exact List.mem_cons_of_mem acc ha''

/-- If no element strictly beats the seed, the scan returns the seed. -/
lemma scanMin_const {α : Type} (v : α → ℚ) :
    ∀ (l : List α) (acc : α), (∀ a ∈ l, ¬v a < v acc) → scanMin v acc l = acc := by
  intro l
  induction l with
  | nil => intro acc _; rfl
  | cons x xs ih =>
    intro acc hl
    have hx : ¬v x < v acc := hl x (List.mem_cons_self x xs)
    simp only [scanMin, if_neg hx]
    exact ih acc fun a ha => hl a (List.mem_cons_of_mem x ha)

/-- The stable-pose loop is the running-minimum scan on vertical extents
    (seeded by the first pose, `None` playing infinity before it). -/
lemma minHeightScan_eq (m : Mesh) (t : TF) (ts : List TF) :
    minHeightScan m (t :: ts) =
      (some (zExtAfter m (scanMin (zExtAfter m) t ts)),
       some (scanMin (zExtAfter m) t ts)) := by
  have aux : ∀ (xs : List TF) (acc : TF),
      (xs.foldl
        (fun acc tf =>
          let z := (extentsOf (applyTF tf m)).z
          match acc.1 with
          | none => (some z, some tf)
          | some mz => if z < mz then (some z, some tf) else acc)
        (some (zExtAfter m acc), some acc)) =
      (some (zExtAfter m (scanMin (zExtAfter m) acc xs)),
       some (scanMin (zExtAfter m) acc xs)) := by
    intro xs
    induction xs with
    | nil => intro acc; simp [scanMin]
    | cons x xs ih =>
      intro acc
      simp only [List.foldl_cons]
      rw [show ((extentsOf (applyTF x m)).z : ℚ) = zExtAfter m x from rfl]
      by_cases h : zExtAfter m x < zExtAfter m acc
      · rw [if_pos h, ih x]
        simp [scanMin, if_pos h]
      · rw [if_neg h, ih acc]
        simp [scanMin, if_neg h]
  show (t :: ts).foldl _ (none, none) = _
  rw [List.foldl_cons]
  exact aux ts t

/-- The yaw loop is the running-minimum scan on x extents seeded by the
    identity rotation. -/
lemma rotSearch_eq (m : Mesh) (rots : List TF) :
    rotSearch m rots =
      (scanMin (xExtAfter m) TF.id rots,
       xExtAfter m (scanMin (xExtAfter m) TF.id rots)) := by
  have aux : ∀ (xs : List TF) (acc : TF),
      (xs.foldl
        (fun best rot =>
          let xe := (extentsOf (applyTF rot m)).x
          if xe < best.2 then (rot, xe) else best)
        (acc, xExtAfter m acc)) =
      (scanMin (xExtAfter m) acc xs, xExtAfter m (scanMin (xExtAfter m) acc xs)) := by
    intro xs
    induction xs with
    | nil => intro acc; simp [scanMin]
    | cons x xs ih =>
      intro acc
      simp only [List.foldl_cons]
      rw [show ((extentsOf (applyTF x m)).x : ℚ) = xExtAfter m x from rfl]
      by_cases h : xExtAfter m x < xExtAfter m acc
      · rw [if_pos h, ih x]
        simp [scanMin, if_pos h]
      · rw [if_neg h, ih acc]
        simp [scanMin, if_neg h]
  have hinit : (extentsOf m).x = xExtAfter m TF.id := by
    rw [xExtAfter, applyTF_id]
  show rots.foldl _ (TF.id, (extentsOf m).x) = _
  rw [hinit]
  exact aux rots TF.id

/-- `3.1 < pi <= 3.2`: the while-loop guard `theta < np.pi` with step `0.1`
    from `0` admits exactly the 32 samples `k/10`, `k < 32`. -/
lemma thetas_while_pi (k : ℕ) : (k : ℝ) / 10 < Real.pi ↔ k < 32 := by
  constructor
  · intro h
    by_contra hk
    push_neg at hk
    have h32 : (32 : ℝ) ≤ (k : ℝ) := by exact_mod_cast hk
    have hpi : Real.pi < 3.15 := Real.pi_lt_d2
    linarith
  · intro hk
    have h31 : (k : ℝ) ≤ 31 := by exact_mod_cast Nat.lt_succ_iff.mp hk
    have hpi : Real.pi > 3.141592 := Real.pi_gt_d6
    linarith

/-- A mesh's validity predicate, in propositional form. -/
lemma validMesh_iff {m : Mesh} :
    validMesh m = true ↔
      ∀ f ∈ m.faces, f.a < m.vertices.length ∧ f.b < m.vertices.length ∧
        f.c < m.vertices.length := by
  simp [validMesh, List.all_eq_true, faceValid, and_assoc]

/-! ### Watertightness of the assembled package -/

lemma cnt_pos_iff {e : ℕ × ℕ} {l : List (ℕ × ℕ)} : 0 < cnt e l ↔ e ∈ l := by
  constructor
  · intro h
    by_contra hmem
    rw [cnt_eq_zero_iff.mpr hmem] at h
    omega
  · exact cnt_pos_of_mem

lemma eraseIdx_append_left (l₁ l₂ : List Face) (i : ℕ) (hi : i < l₁.length) :
    (l₁ ++ l₂).eraseIdx i = l₁.eraseIdx i ++ l₂ := by
  rw [List.eraseIdx_eq_take_drop_succ, List.eraseIdx_eq_take_drop_succ,
    List.take_append_eq_append_take, List.drop_append_eq_append_drop]
  have h1 : i - l₁.length = 0 := by omega
  have h2 : i + 1 - l₁.length = 0 := by omega
  rw [h1, h2]
  simp [List.append_assoc]

lemma cnt_edgesOf_eraseIdx (fs : List Face) (i : ℕ) (hi : i < fs.length)
    (e : ℕ × ℕ) :
    cnt e (edgesOf fs) =
      cnt e (edgesOf (fs.eraseIdx i)) + cnt e (faceEdges (fs.getD i ⟨0, 0, 0⟩)) := by
  have hget : fs.getD i ⟨0, 0, 0⟩ = fs[i] := List.getD_eq_getElem fs ⟨0, 0, 0⟩ hi
  have h1 : fs = fs.take i ++ fs[i] :: fs.drop (i + 1) := by
    conv_lhs => rw [← List.take_append_drop i fs]
    rw [List.getElem_cons_drop fs i hi]
  have h2 : fs.eraseIdx i = fs.take i ++ fs.drop (i + 1) :=
    List.eraseIdx_eq_take_drop_succ fs i
  conv_lhs => rw [h1]
  rw [h2, hget, edgesOf_append, edgesOf_append, edgesOf_cons, cnt_append,
    cnt_append, cnt_append]
  omega

lemma mem_of_mem_eraseIdx {f : Face} {fs : List Face} {i : ℕ}
    (h : f ∈ fs.eraseIdx i) : f ∈ fs :=
  (List.eraseIdx_sublist fs i).subset h

lemma hMap_lt_iff {a b c nv : ℕ} (ha : a < nv) (hb : b < nv) (hc : c < nv)
    (l : ℕ) : hMap a b c nv l < nv ↔ l < 3 := by
  unfold hMap
  split_ifs <;> omega

lemma hMap_inj {a b c nv : ℕ} (ha : a < nv) (hb : b < nv) (hc : c < nv)
    (hab : a ≠ b) (hbc : b ≠ c) (hac : a ≠ c) :
    Function.Injective (hMap a b c nv) := by
  intro x y hxy
  unfold hMap at hxy
  split_ifs at hxy <;> omega

lemma gMap_ge (nv l : ℕ) : nv ≤ gMap nv l := by
  unfold gMap
  split_ifs <;> omega

lemma gMap_inj (nv : ℕ) : Function.Injective (gMap nv) := by
  intro x y hxy
  unfold gMap at hxy
  split_ifs at hxy <;> omega

lemma mapLbl_eq_gMap (nv : ℕ) {l : ℕ} (h : l < 7) :
    mapLbl (nv + 3) l = gMap nv l := by
  unfold mapLbl gMap
  split_ifs <;> omega

lemma prismOf_eq_map (cf : Face) (nv : ℕ) :
    prismOf cf nv = prismP.map (faceMap (hMap cf.a cf.b cf.c nv)) := by
  simp only [prismOf, prismP, faceMap, hMap, List.map_cons, List.map_nil]
  norm_num
  omega

lemma boxShift_eq_map (nv : ℕ) :
    boxFaceList.map (fun g => Face.mk (g.a + (nv + 3)) (g.b + (nv + 3)) (g.c + (nv + 3))) =
      boxRel.map (faceMap (gMap nv)) := by
  simp only [boxFaceList, boxRel, faceMap, gMap, List.map_cons, List.map_nil]
  norm_num
  omega

/-- In the abstract pedestal complex, an edge between two contact labels is an
    edge of the contact triangle, with the same multiplicity. -/
lemma prismP_low_facts :
    ∀ e ∈ edgesOf prismP, e.1 < 3 → e.2 < 3 →
      cnt e (edgesOf prismP) = cnt e (faceEdges ⟨0, 1, 2⟩) ∧
        0 < cnt e (faceEdges ⟨0, 1, 2⟩) := by decide

/-- In the abstract pedestal complex, each wall edge (one contact label, one
    lifted label) is shared by exactly two wall faces. -/
lemma prismP_mid_facts :
    ∀ e ∈ edgesOf prismP, e.1 < 3 → 3 ≤ e.2 → cnt e (edgesOf prismP) = 2 := by decide

/-- In the abstract pedestal complex, an edge between two lifted labels is an
    edge of the lifted triangle, with the same multiplicity. -/
lemma prismP_high_facts :
    ∀ e ∈ edgesOf prismP, 3 ≤ e.1 →
      cnt e (edgesOf prismP) = cnt e (faceEdges ⟨3, 4, 5⟩) := by decide

lemma faceEdges012_sub : ∀ e ∈ faceEdges (⟨0, 1, 2⟩ : Face), e ∈ edgesOf prismP := by decide

lemma faceEdges345_sub : ∀ e ∈ faceEdges (⟨3, 4, 5⟩ : Face), e ∈ edgesOf prismP := by decide

lemma boxFaceList_bounds : ∀ g ∈ boxFaceList, g.a ≤ 7 ∧ g.b ≤ 7 ∧ g.c ≤ 7 := by decide

lemma gMap_lt_11 (nv : ℕ) {l : ℕ} (h : l < 7) : gMap nv l < nv + 11 := by
  unfold gMap
  split_ifs <;> omega

/-- The central topological fact: if the input faces are watertight with valid
    indices, the contact face has three distinct corners, and the triangulation
    satisfies its interface contract, then the face list assembled by
    `_package` is again watertight (every edge shared by exactly two faces)
    and all its indices lie below `nv + 11` (the assembled vertex count). -/
lemma assembled_spec
    (F : List Face) (i nv : ℕ) (T : List Face)
    (hvalid : ∀ f ∈ F, f.a < nv ∧ f.b < nv ∧ f.c < nv)
    (hw : ∀ e ∈ edgesOf F, cnt e (edgesOf F) = 2)
    (hi : i < F.length)
    (hab : (F.getD i ⟨0, 0, 0⟩).a ≠ (F.getD i ⟨0, 0, 0⟩).b)
    (hbc : (F.getD i ⟨0, 0, 0⟩).b ≠ (F.getD i ⟨0, 0, 0⟩).c)
    (hac : (F.getD i ⟨0, 0, 0⟩).a ≠ (F.getD i ⟨0, 0, 0⟩).c)
    (hT7 : ∀ g ∈ T, g.a < 7 ∧ g.b < 7 ∧ g.c < 7)
    (hC : ∀ e ∈ edgesOf (T ++ [⟨4, 5, 6⟩] ++ boxRel),
            cnt e (edgesOf (T ++ [⟨4, 5, 6⟩] ++ boxRel)) = 2) :
    (∀ e ∈ edgesOf (assembledFaces F i nv T),
        cnt e (edgesOf (assembledFaces F i nv T)) = 2) ∧
      ∀ f ∈ assembledFaces F i nv T,
        f.a < nv + 11 ∧ f.b < nv + 11 ∧ f.c < nv + 11 := by
  set cf := F.getD i ⟨0, 0, 0⟩ with hcf
  have hcfmem : cf ∈ F := by
    rw [hcf, List.getD_eq_getElem F _ hi]
    exact List.getElem_mem hi
  obtain ⟨hca, hcb, hcc⟩ := hvalid cf hcfmem
  have hinjh : Function.Injective (hMap cf.a cf.b cf.c nv) :=
    hMap_inj hca hcb hcc hab hbc hac
  have hinjg : Function.Injective (gMap nv) := gMap_inj nv
  have hMeq : T.map (fun g =>
        Face.mk (mapLbl (nv + 3) g.a) (mapLbl (nv + 3) g.b) (mapLbl (nv + 3) g.c)) =
      T.map (faceMap (gMap nv)) := by
    apply List.map_congr_left
    intro g hg
    obtain ⟨h1, h2, h3⟩ := hT7 g hg
    simp [faceMap, mapLbl_eq_gMap nv h1, mapLbl_eq_gMap nv h2, mapLbl_eq_gMap nv h3]
  have hsplit : ∀ e, cnt e (edgesOf (assembledFaces F i nv T)) =
      cnt e (edgesOf (F.eraseIdx i)) + cnt e (edgesOf (prismOf cf nv)) +
        cnt e (edgesOf (T.map (faceMap (gMap nv)))) +
        cnt e (edgesOf (boxRel.map (faceMap (gMap nv)))) := by
    intro e
    unfold assembledFaces
    rw [← hcf, eraseIdx_append_left F _ i hi, hMeq, boxShift_eq_map]
    rw [edgesOf_append, edgesOf_append, edgesOf_append, cnt_append, cnt_append, cnt_append]
    omega
  have hPedges : edgesOf (prismOf cf nv) =
      (edgesOf prismP).map (eMap (hMap cf.a cf.b cf.c nv)) := by
    rw [prismOf_eq_map, edgesOf_map]
  have hcfP : faceEdges cf =
      (faceEdges (⟨0, 1, 2⟩ : Face)).map (eMap (hMap cf.a cf.b cf.c nv)) := by
    simp [faceEdges, eMap_edgeKey, hMap]
  have hpsE : faceEdges (⟨nv, nv + 1, nv + 2⟩ : Face) =
      (faceEdges (⟨3, 4, 5⟩ : Face)).map (eMap (hMap cf.a cf.b cf.c nv)) := by
    simp only [faceEdges, List.map_cons, List.map_nil, eMap_edgeKey, hMap]
    norm_num
    refine ⟨?_, ?_, ?_⟩ <;> rw [edgeKey_eq_iff] <;> omega
  have htransP : ∀ e₀ ∈ edgesOf prismP,
      cnt (eMap (hMap cf.a cf.b cf.c nv) e₀) (edgesOf (prismOf cf nv)) =
        cnt e₀ (edgesOf prismP) := by
    intro e₀ h₀
    rw [hPedges]
    exact cnt_map_eMap hinjh (mem_edgesOf_sorted h₀) fun x hx => mem_edgesOf_sorted hx
  have htransCf : ∀ e₀ : ℕ × ℕ, e₀.1 ≤ e₀.2 →
      cnt (eMap (hMap cf.a cf.b cf.c nv) e₀) (faceEdges cf) =
        cnt e₀ (faceEdges (⟨0, 1, 2⟩ : Face)) := by
    intro e₀ hs
    rw [hcfP]
    exact cnt_map_eMap hinjh hs fun x hx => mem_faceEdges_sorted hx
  have htransPs : ∀ e₀ : ℕ × ℕ, e₀.1 ≤ e₀.2 →
      cnt (eMap (hMap cf.a cf.b cf.c nv) e₀) (faceEdges (⟨nv, nv + 1, nv + 2⟩ : Face)) =
        cnt e₀ (faceEdges (⟨3, 4, 5⟩ : Face)) := by
    intro e₀ hs
    rw [hpsE]
    exact cnt_map_eMap hinjh hs fun x hx => mem_faceEdges_sorted hx
  have hcfsub : ∀ e ∈ faceEdges cf, e ∈ edgesOf (prismOf cf nv) := by
    intro e he
    rw [hcfP] at he
    rcases List.mem_map.mp he with ⟨e₀, h₀, rfl⟩
    rw [hPedges]
    exact List.mem_map.mpr ⟨e₀, faceEdges012_sub e₀ h₀, rfl⟩
  have hpssub : ∀ e ∈ faceEdges (⟨nv, nv + 1, nv + 2⟩ : Face),
      e ∈ edgesOf (prismOf cf nv) := by
    intro e he
    rw [hpsE] at he
    rcases List.mem_map.mp he with ⟨e₀, h₀, rfl⟩
    rw [hPedges]
    exact List.mem_map.mpr ⟨e₀, faceEdges345_sub e₀ h₀, rfl⟩
  have hFv' : ∀ f ∈ F.eraseIdx i, f.a < nv ∧ f.b < nv ∧ f.c < nv :=
    fun f hf => hvalid f (mem_of_mem_eraseIdx hf)
  have hFhi : ∀ e : ℕ × ℕ, nv ≤ e.2 → cnt e (edgesOf (F.eraseIdx i)) = 0 :=
    fun e he => cnt_edges_zero_hi hFv' he
  have hMlo : ∀ e : ℕ × ℕ, e.1 < nv →
      cnt e (edgesOf (T.map (faceMap (gMap nv)))) = 0 := by
    intro e he
    apply cnt_edges_zero_lo _ he
    intro f hf
    rcases List.mem_map.mp hf with ⟨g, _, rfl⟩
    exact ⟨gMap_ge nv g.a, gMap_ge nv g.b, gMap_ge nv g.c⟩
  have hBlo : ∀ e : ℕ × ℕ, e.1 < nv →
      cnt e (edgesOf (boxRel.map (faceMap (gMap nv)))) = 0 := by
    intro e he
    apply cnt_edges_zero_lo _ he
    intro f hf
    rcases List.mem_map.mp hf with ⟨g, _, rfl⟩
    exact ⟨gMap_ge nv g.a, gMap_ge nv g.b, gMap_ge nv g.c⟩
  have hlt_iff := hMap_lt_iff hca hcb hcc
  constructor
  · intro e he
    have hes : e.1 ≤ e.2 := mem_edgesOf_sorted he
    have hepos : 0 < cnt e (edgesOf (assembledFaces F i nv T)) := cnt_pos_of_mem he
    rw [hsplit e] at hepos ⊢
    rcases Nat.lt_or_ge e.2 nv with h2 | h2
    · -- both endpoints are original vertices
      have hM0 := hMlo e (lt_of_le_of_lt hes h2)
      have hB0 := hBlo e (lt_of_le_of_lt hes h2)
      by_cases hmem : e ∈ edgesOf (prismOf cf nv)
      · rw [hPedges] at hmem
        rcases List.mem_map.mp hmem with ⟨e₀, h₀, rfl⟩
        have h₀s : e₀.1 ≤ e₀.2 := mem_edgesOf_sorted h₀
        have hmax : (eMap (hMap cf.a cf.b cf.c nv) e₀).2 =
            max (hMap cf.a cf.b cf.c nv e₀.1) (hMap cf.a cf.b cf.c nv e₀.2) := rfl
        obtain ⟨hl1, hl2⟩ : e₀.1 < 3 ∧ e₀.2 < 3 := by
          rw [hmax] at h2
          have hu := hlt_iff e₀.1
          have hv := hlt_iff e₀.2
          constructor
          · exact hu.mp (by omega)
          · exact hv.mp (by omega)
        obtain ⟨heq, hposcf⟩ := prismP_low_facts e₀ h₀ hl1 hl2
        have hPeq : cnt (eMap (hMap cf.a cf.b cf.c nv) e₀) (edgesOf (prismOf cf nv)) =
            cnt (eMap (hMap cf.a cf.b cf.c nv) e₀) (faceEdges cf) := by
          rw [htransP e₀ h₀, heq, htransCf e₀ h₀s]
        have hcfpos : 0 < cnt (eMap (hMap cf.a cf.b cf.c nv) e₀) (faceEdges cf) := by
          rw [htransCf e₀ h₀s]
          exact hposcf
        have heF : eMap (hMap cf.a cf.b cf.c nv) e₀ ∈ edgesOf F :=
          mem_edgesOf.mpr ⟨cf, hcfmem, cnt_pos_iff.mp hcfpos⟩
        have hdec := cnt_edgesOf_eraseIdx F i hi (eMap (hMap cf.a cf.b cf.c nv) e₀)
        rw [← hcf] at hdec
        have hwF := hw _ heF
        rw [hM0, hB0, hPeq]
        omega
      · have hP0 : cnt e (edgesOf (prismOf cf nv)) = 0 := cnt_eq_zero_iff.mpr hmem
        rw [hM0, hB0, hP0] at hepos ⊢
        have heF' : e ∈ edgesOf (F.eraseIdx i) := cnt_pos_iff.mp (by omega)
        have heF : e ∈ edgesOf F := by
          rcases mem_edgesOf.mp heF' with ⟨f, hf, hfe⟩
          exact mem_edgesOf.mpr ⟨f, mem_of_mem_eraseIdx hf, hfe⟩
        have hcf0 : cnt e (faceEdges cf) = 0 := by
          rw [cnt_eq_zero_iff]
          intro hmemcf
          exact hmem (hcfsub e hmemcf)
        have hdec := cnt_edgesOf_eraseIdx F i hi e
        rw [← hcf] at hdec
        have hwF := hw e heF
        omega
    · rcases Nat.lt_or_ge e.1 nv with h1 | h1
      · -- one original endpoint, one fresh pedestal endpoint: a wall edge
        have hF0 := hFhi e h2
        have hM0 := hMlo e h1
        have hB0 := hBlo e h1
        rw [hF0, hM0, hB0] at hepos ⊢
        have hmem : e ∈ edgesOf (prismOf cf nv) := cnt_pos_iff.mp (by omega)
        rw [hPedges] at hmem
        rcases List.mem_map.mp hmem with ⟨e₀, h₀, rfl⟩
        have h₀s : e₀.1 ≤ e₀.2 := mem_edgesOf_sorted h₀
        have hmin : (eMap (hMap cf.a cf.b cf.c nv) e₀).1 =
            min (hMap cf.a cf.b cf.c nv e₀.1) (hMap cf.a cf.b cf.c nv e₀.2) := rfl
        have hmax : (eMap (hMap cf.a cf.b cf.c nv) e₀).2 =
            max (hMap cf.a cf.b cf.c nv e₀.1) (hMap cf.a cf.b cf.c nv e₀.2) := rfl
        obtain ⟨hl1, hl2⟩ : e₀.1 < 3 ∧ 3 ≤ e₀.2 := by
          rw [hmin] at h1
          rw [hmax] at h2
          have hu := hlt_iff e₀.1
          have hv := hlt_iff e₀.2
          rcases Nat.lt_or_ge e₀.1 3 with hx | hx
          · refine ⟨hx, ?_⟩
            by_contra hy
            push_neg at hy
            have := hu.mpr hx
            have := hv.mpr hy
            omega
          · exfalso
            have hy : 3 ≤ e₀.2 := le_trans hx h₀s
            have h1' : ¬hMap cf.a cf.b cf.c nv e₀.1 < nv := by
              intro hcontra
              exact absurd (hu.mp hcontra) (by omega)
            have h2' : ¬hMap cf.a cf.b cf.c nv e₀.2 < nv := by
              intro hcontra
              exact absurd (hv.mp hcontra) (by omega)
            omega
        rw [htransP e₀ h₀, prismP_mid_facts e₀ h₀ hl1 hl2]
      · -- both endpoints are fresh vertices: the new top complex
        have hF0 := hFhi e (le_trans h1 hes)
        rw [hF0] at hepos ⊢
        have hPps : cnt e (edgesOf (prismOf cf nv)) =
            cnt e (faceEdges (⟨nv, nv + 1, nv + 2⟩ : Face)) := by
          by_cases hmem : e ∈ edgesOf (prismOf cf nv)
          · rw [hPedges] at hmem
            rcases List.mem_map.mp hmem with ⟨e₀, h₀, rfl⟩
            have h₀s : e₀.1 ≤ e₀.2 := mem_edgesOf_sorted h₀
            have hmin : (eMap (hMap cf.a cf.b cf.c nv) e₀).1 =
                min (hMap cf.a cf.b cf.c nv e₀.1) (hMap cf.a cf.b cf.c nv e₀.2) := rfl
            have hl1 : 3 ≤ e₀.1 := by
              by_contra hx
              push_neg at hx
              have := (hlt_iff e₀.1).mpr hx
              rw [hmin] at h1
              omega
            rw [htransP e₀ h₀, prismP_high_facts e₀ h₀ hl1, htransPs e₀ h₀s]
          · rw [cnt_eq_zero_iff.mpr hmem, eq_comm, cnt_eq_zero_iff]
            intro hps
            exact hmem (hpssub e hps)
        rw [hPps] at hepos ⊢
        have hsum : cnt e (faceEdges (⟨nv, nv + 1, nv + 2⟩ : Face)) +
            cnt e (edgesOf (T.map (faceMap (gMap nv)))) +
            cnt e (edgesOf (boxRel.map (faceMap (gMap nv)))) =
            cnt e ((edgesOf (T ++ [⟨4, 5, 6⟩] ++ boxRel)).map (eMap (gMap nv))) := by
          rw [← edgesOf_map, List.map_append, List.map_append, edgesOf_append,
            edgesOf_append, cnt_append, cnt_append]
          have hps : (([⟨4, 5, 6⟩] : List Face).map (faceMap (gMap nv))) =
              [⟨nv, nv + 1, nv + 2⟩] := by
            simp [faceMap, gMap]
          rw [hps, edgesOf_cons, edgesOf_nil, List.append_nil]
          omega
        by_cases hmem : e ∈ (edgesOf (T ++ [⟨4, 5, 6⟩] ++ boxRel)).map (eMap (gMap nv))
        · rcases List.mem_map.mp hmem with ⟨e₀, h₀, rfl⟩
          have h₀s : e₀.1 ≤ e₀.2 := mem_edgesOf_sorted h₀
          have hval := hC e₀ h₀
          have himg := cnt_map_eMap hinjg h₀s
            (fun x hx => mem_edgesOf_sorted hx) (l := edgesOf (T ++ [⟨4, 5, 6⟩] ++ boxRel))
          omega
        · have h0 : cnt e ((edgesOf (T ++ [⟨4, 5, 6⟩] ++ boxRel)).map (eMap (gMap nv))) = 0 :=
            cnt_eq_zero_iff.mpr hmem
          omega
  · intro f hf
    unfold assembledFaces at hf
    rw [← hcf, eraseIdx_append_left F _ i hi] at hf
    rcases List.mem_append.mp hf with hf1 | hf2
    · rcases List.mem_append.mp hf1 with hfF | hfP
      · obtain ⟨h1, h2, h3⟩ := hFv' f hfF
        omega
      · simp only [prismOf, List.mem_cons, List.not_mem_nil, or_false] at hfP
        rcases hfP with rfl | rfl | rfl | rfl | rfl | rfl <;>
          refine ⟨?_, ?_, ?_⟩ <;> simp <;> omega
    · rcases List.mem_append.mp hf2 with hfT | hfB
      · rw [hMeq] at hfT
        rcases List.mem_map.mp hfT with ⟨g, hg, rfl⟩
        obtain ⟨h1, h2, h3⟩ := hT7 g hg
        exact ⟨gMap_lt_11 nv h1, gMap_lt_11 nv h2, gMap_lt_11 nv h3⟩
      · rcases List.mem_map.mp hfB with ⟨g, hg, rfl⟩
        obtain ⟨h1, h2, h3⟩ := boxFaceList_bounds g hg
        refine ⟨?_, ?_, ?_⟩ <;> simp <;> omega

/-! ### The contact-face scan -/

lemma findContactAux_some (m : Mesh) :
    ∀ (fs : List Face) (k j : ℕ), findContactAux m fs k = some j →
      ∃ i, i < fs.length ∧ j = k + i ∧
        contactPred m (fs.getD i ⟨0, 0, 0⟩) = true ∧
        ∀ i' < i, contactPred m (fs.getD i' ⟨0, 0, 0⟩) = false := by
  intro fs
  induction fs with
  | nil => intro k j h; simp [findContactAux] at h
  | cons f fs ih =>
    intro k j h
    simp only [findContactAux] at h
    by_cases hp : contactPred m f
    · rw [if_pos hp] at h
      have hjk : k = j := Option.some.inj h
      refine ⟨0, by simp, ?_⟩
      refine ⟨by omega, by simpa using hp, ?_⟩
      intro i' hi'
      omega
    · rw [if_neg hp] at h
      rcases ih (k + 1) j h with ⟨i, hlen, hj, hpred, hbefore⟩
      refine ⟨i + 1, by simp at hlen ⊢; omega, ?_⟩
      refine ⟨by omega, by simpa using hpred, ?_⟩
      intro i' hi'
      rcases Nat.eq_zero_or_pos i' with rfl | hi'pos
      · simpa using eq_false_of_ne_true hp
      · obtain ⟨i'', rfl⟩ : ∃ i'', i' = i'' + 1 := ⟨i' - 1, by omega⟩
        simpa using hbefore i'' (by omega)

lemma findContactAux_none (m : Mesh) :
    ∀ (fs : List Face) (k : ℕ), findContactAux m fs k = none →
      ∀ f ∈ fs, contactPred m f = false := by
  intro fs
  induction fs with
  | nil => intro k _ f hf; simp at hf
  | cons f fs ih =>
    intro k h g hg
    simp only [findContactAux] at h
    by_cases hp : contactPred m f
    · rw [if_pos hp] at h
      simp at h
    · rw [if_neg hp] at h
      rcases List.mem_cons.mp hg with rfl | hg'
      · exact eq_false_of_ne_true hp
      · exact ih (k + 1) h g hg'

/-- What a successful contact scan guarantees: a valid first index whose face
    satisfies the contact predicate, with every earlier face failing it. -/
lemma findContact_some {m : Mesh} {i : ℕ} (h : findContact m = some i) :
    i < m.faces.length ∧ contactPred m (m.faces.getD i ⟨0, 0, 0⟩) = true ∧
      ∀ i' < i, contactPred m (m.faces.getD i' ⟨0, 0, 0⟩) = false := by
  rcases findContactAux_some m m.faces 0 i h with ⟨i₀, hlen, hj, hpred, hbefore⟩
  have : i = i₀ := by omega
  subst this
  exact ⟨hlen, hpred, hbefore⟩

lemma crossZ_degenerate (p q r : V3) :
    crossZ p p r = 0 ∧ crossZ p q p = 0 ∧ crossZ p q q = 0 := by
  refine ⟨?_, ?_, ?_⟩ <;> (unfold crossZ; ring)

/-- A face selected by the contact predicate has three pairwise distinct
    vertex indices: its projected triangle has nonzero (negative) area. -/
lemma contactPred_distinct {m : Mesh} {f : Face} (h : contactPred m f = true) :
    f.a ≠ f.b ∧ f.b ≠ f.c ∧ f.a ≠ f.c := by
  have hcz : crossZ (vert m f.a) (vert m f.b) (vert m f.c) < 0 := by
    simp only [contactPred, Bool.and_eq_true, decide_eq_true_eq] at h
    exact h.2
  refine ⟨?_, ?_, ?_⟩ <;> intro heq
  · rw [heq] at hcz
    rw [(crossZ_degenerate (vert m f.b) (vert m f.b) (vert m f.c)).1] at hcz
    exact absurd hcz (by norm_num)
  · rw [heq] at hcz
    rw [(crossZ_degenerate (vert m f.a) (vert m f.c) (vert m f.c)).2.2] at hcz
    exact absurd hcz (by norm_num)
  · rw [heq] at hcz
    rw [(crossZ_degenerate (vert m f.c) (vert m f.b) (vert m f.c)).2.1] at hcz
    exact absurd hcz (by norm_num)

/-! ### Anatomy of a successful `_package` call -/

/-- A successful `_package` call found a pose and a contact face, and its
    result is the recentred assembly: its faces are `assembledFaces` and its
    vertex count grew by exactly 11 (3 pedestal-top + 8 box corners). -/
lemma _package_ok_some {sp : Mesh → List TF} {zrot : ℚ → M3} {tri : PSLG → List Face}
    {m : Mesh} {bw tab d off : ℚ} {lims : V3} {res : Mesh}
    (h : _package sp zrot tri m bw tab d off lims = Except.ok (some res)) :
    ∃ pose i p,
      findContact (applyTF pose m) = some i ∧
      res.faces = assembledFaces m.faces i m.vertices.length (tri p) ∧
      res.vertices.length = m.vertices.length + 11 := by
  unfold _package at h
  dsimp only at h
  rcases hp : _get_packaged_pose sp zrot m with e | pose
  · rw [hp] at h
    simp at h
  · rw [hp] at h
    dsimp only at h
    split_ifs at h with hext
    · simp at h
    · rcases hfc : findContact (applyTF pose m) with _ | i
      · rw [hfc] at h
        simp at h
      · rw [hfc] at h
        simp only [Except.ok.injEq, Option.some.injEq] at h
        refine ⟨pose, i,
          plsgOf (applyTF pose m) i (bw * (extentsOf (applyTF pose m)).x)
            (tab * (extentsOf (applyTF pose m)).y), hfc, ?_, ?_⟩
        · rw [← h]
          simp only [applyTranslation, assembledFaces, prismOf, applyTF, plsgOf,
            List.length_append, List.length_map, List.length_cons, List.length_nil]
        · rw [← h]
          simp only [applyTranslation, applyTF, List.length_append, List.length_map,
            List.length_cons, List.length_nil]

/-! ### Branch lemmas for `package` and `_package` -/

lemma package_watertight_eq (sp : Mesh → List TF) (zrot : ℚ → M3)
    (tri : PSLG → List Face) (m : Mesh) (cfg : Cfg) (r : Rng)
    (h : isWatertight m = true) :
    package sp zrot tri m cfg r =
      (_package sp zrot tri m
        (cfg.min_border_width_pct +
          r.src r.pos * (cfg.max_border_width_pct - cfg.min_border_width_pct))
        (cfg.min_tab_height_pct +
          r.src (r.pos + 1) * (cfg.max_tab_height_pct - cfg.min_tab_height_pct))
        (cfg.min_depth + r.src (r.pos + 2) * (cfg.max_depth - cfg.min_depth))
        cfg.offset cfg.ext_limits,
       ⟨r.src, r.pos + 3⟩) := by
  unfold package
  rw [if_pos h]
  rfl

lemma package_not_watertight (sp : Mesh → List TF) (zrot : ℚ → M3)
    (tri : PSLG → List Face) (m : Mesh) (cfg : Cfg) (r : Rng)
    (h : isWatertight m = false) :
    package sp zrot tri m cfg r =
      (Except.error "Must have a watertight mesh to package it!", r) := by
  unfold package
  rw [if_neg (by rw [h]; exact fun hcontra => nomatch hcontra)]

lemma _get_packaged_pose_empty (sp : Mesh → List TF) (zrot : ℚ → M3) (m : Mesh)
    (h : sp m = []) :
    _get_packaged_pose sp zrot m = Except.error "apply_transform of None" := by
  unfold _get_packaged_pose
  rw [h]
  rfl

lemma _get_packaged_pose_cons (sp : Mesh → List TF) (zrot : ℚ → M3) (m : Mesh)
    (t : TF) (ts : List TF) (h : sp m = t :: ts) :
    _get_packaged_pose sp zrot m =
      Except.ok (TF.comp
        (rotSearch (applyTF (scanMin (zExtAfter m) t ts) m)
          (thetas.map (fun th => TF.mk (zrot th) ⟨0, 0, 0⟩))).1
        (scanMin (zExtAfter m) t ts)) := by
  unfold _get_packaged_pose
  rw [h]
  dsimp only
  rw [minHeightScan_eq]

lemma _package_err (sp : Mesh → List TF) (zrot : ℚ → M3) (tri : PSLG → List Face)
    (m : Mesh) (bw tab d off : ℚ) (lims : V3) (e : String)
    (hp : _get_packaged_pose sp zrot m = Except.error e) :
    _package sp zrot tri m bw tab d off lims = Except.error e := by
  unfold _package
  dsimp only
  rw [hp]

lemma _package_reject (sp : Mesh → List TF) (zrot : ℚ → M3) (tri : PSLG → List Face)
    (m : Mesh) (bw tab d off : ℚ) (lims : V3) (pose : TF)
    (hp : _get_packaged_pose sp zrot m = Except.ok pose)
    (hext : (extentsOf (applyTF pose m)).x > lims.x ∨
      (extentsOf (applyTF pose m)).y > lims.y ∨
      (extentsOf (applyTF pose m)).z > lims.z) :
    _package sp zrot tri m bw tab d off lims = Except.ok none := by
  unfold _package
  dsimp only
  rw [hp]
  dsimp only
  rw [if_pos hext]

lemma _package_malformed (sp : Mesh → List TF) (zrot : ℚ → M3) (tri : PSLG → List Face)
    (m : Mesh) (bw tab d off : ℚ) (lims : V3) (pose : TF)
    (hp : _get_packaged_pose sp zrot m = Except.ok pose)
    (hext : ¬((extentsOf (applyTF pose m)).x > lims.x ∨
      (extentsOf (applyTF pose m)).y > lims.y ∨
      (extentsOf (applyTF pose m)).z > lims.z))
    (hfc : findContact (applyTF pose m) = none) :
    _package sp zrot tri m bw tab d off lims = Except.error "Malformed mesh" := by
  unfold _package
  dsimp only
  rw [hp]
  dsimp only
  rw [if_neg hext, hfc]

/-- `_package` only consults the externals `sp`, `zrot` through the computed
    pose: equal poses give equal results. -/
lemma _package_congr_pose (sp₁ sp₂ : Mesh → List TF) (zrot₁ zrot₂ : ℚ → M3)
    (tri : PSLG → List Face) (m : Mesh) (bw tab d off : ℚ) (lims : V3)
    (h : _get_packaged_pose sp₁ zrot₁ m = _get_packaged_pose sp₂ zrot₂ m) :
    _package sp₁ zrot₁ tri m bw tab d off lims =
      _package sp₂ zrot₂ tri m bw tab d off lims := by
  unfold _package
  dsimp only
  rw [h]

deriving instance DecidableEq for Except

section ConcreteEvaluation

attribute [local semireducible] Rat.add Rat.mul Rat.inv Rat.sub Rat.ofScientific

set_option maxRecDepth 10000

/-- The scenario run produces exactly `cubePackaged`. -/
lemma cube_run_eq :
    (package cubePoses zrotId triConst unitCube cfgCube rng0).1 =
      Except.ok (some cubePackaged) := by
  decide

/-- Decided facts about the scenario result: x extent 1.2, z extent 1.03,
    watertight, valid, and a minimum z displaced from -0.03 by exactly the
    height of the pre-centring assembly's center of mass. -/
lemma cubePackaged_facts :
    (extentsOf cubePackaged).x = 6/5 ∧ (extentsOf cubePackaged).z = 103/100 ∧
      isWatertight cubePackaged = true ∧ validMesh cubePackaged = true ∧
      (lowerB cubePackaged).z = -3/100 - 499351/1036200 := by
  decide

end ConcreteEvaluation

/-! ### Heap frame lemmas -/

lemma pres_refl (n : ℕ) (h : Heap) : Pres n h h := fun _ _ => rfl

lemma pres_trans {n : ℕ} {h1 h2 h3 : Heap} (a : Pres n h1 h2) (b : Pres n h2 h3) :
    Pres n h1 h3 := fun j hj => (b j hj).trans (a j hj)

lemma pres_alloc {n : ℕ} {h : Heap} (hn : n ≤ h.length) (m : Mesh) :
    Pres n h (h ++ [m]) := by
  intro j hj
  unfold hread
  simp [List.getD_eq_getElem?_getD, List.getElem?_append_left (by omega : j < h.length)]

lemma pres_write {n : ℕ} {h : Heap} {k : ℕ} (hk : n ≤ k) (m : Mesh) :
    Pres n h (hwrite h k m) := by
  intro j hj
  unfold hread hwrite
  simp [List.getD_eq_getElem?_getD, List.getElem?_set_ne (by omega : k ≠ j)]

lemma length_hwrite (h : Heap) (k : ℕ) (m : Mesh) :
    (hwrite h k m).length = h.length := List.length_set h k m

/-- Fold invariant: if each step preserves the watermark invariant, so does
    the whole fold. -/
lemma foldl_heap_inv {α β : Type} (n : ℕ) (h0 : Heap)
    (f : (β × Heap) → α → β × Heap)
    (hf : ∀ s a, n ≤ s.2.length → Pres n h0 s.2 →
            n ≤ (f s a).2.length ∧ Pres n h0 (f s a).2) :
    ∀ (l : List α) (s : β × Heap), n ≤ s.2.length → Pres n h0 s.2 →
      n ≤ (l.foldl f s).2.length ∧ Pres n h0 (l.foldl f s).2 := by
  intro l
  induction l with
  | nil => intro s h1 h2; exact ⟨h1, h2⟩
  | cons x xs ih =>
    intro s h1 h2
    rw [List.foldl_cons]
    rcases hf s x h1 h2 with ⟨h1', h2'⟩
    exact ih (f s x) h1' h2'

/-- The copy-then-mutate step used by both loops keeps the invariant: it
    allocates a fresh object and mutates only that object. -/
lemma copy_mutate_step {n : ℕ} {h0 : Heap} (h : Heap) (m m' : Mesh)
    (h1 : n ≤ h.length) (h2 : Pres n h0 h) :
    n ≤ (hwrite (h ++ [m]) h.length m').length ∧
      Pres n h0 (hwrite (h ++ [m]) h.length m') := by
  constructor
  · rw [length_hwrite]
    simp
    omega
  · refine pres_trans h2 (pres_trans (pres_alloc h1 m) (pres_write ?_ m'))
    exact h1

lemma poseStepH_heap (rm : ℕ) (st : (Option ℚ × Option TF) × Heap) (tf : TF) :
    (poseStepH rm st tf).2 =
      hwrite (st.2 ++ [hread st.2 rm]) st.2.length
        (applyTF tf (hread (st.2 ++ [hread st.2 rm]) st.2.length)) := by
  unfold poseStepH halloc
  rcases st.1.1 with _ | mz
  · rfl
  · dsimp only
    split <;> rfl

lemma rotStepH_heap (zrot : ℚ → M3) (rm : ℕ) (st : (TF × ℚ) × Heap) (th : ℚ) :
    (rotStepH zrot rm st th).2 =
      hwrite (st.2 ++ [hread st.2 rm]) st.2.length
        (applyTF ⟨zrot th, ⟨0, 0, 0⟩⟩ (hread (st.2 ++ [hread st.2 rm]) st.2.length)) := by
  unfold rotStepH halloc
  rfl

lemma _get_packaged_poseH_pres (sp : Mesh → List TF) (zrot : ℚ → M3)
    (h0 : Heap) (r n : ℕ) (hn : n ≤ h0.length) :
    n ≤ (_get_packaged_poseH sp zrot h0 r).2.length ∧
      Pres n h0 (_get_packaged_poseH sp zrot h0 r).2 := by
  unfold _get_packaged_poseH
  dsimp only
  have base1 : n ≤ ((halloc h0 (hread h0 r)).1).length := by
    simp [halloc]
    omega
  have base2 : Pres n h0 (halloc h0 (hread h0 r)).1 := pres_alloc hn _
  have hstep : ∀ (s : (Option ℚ × Option TF) × Heap) (a : TF),
      n ≤ s.2.length → Pres n h0 s.2 →
      n ≤ ((poseStepH (halloc h0 (hread h0 r)).2 s a)).2.length ∧
        Pres n h0 ((poseStepH (halloc h0 (hread h0 r)).2 s a)).2 := by
    intro s a h1 h2
    rw [poseStepH_heap]
    exact copy_mutate_step s.2 _ _ h1 h2
  have hfold := foldl_heap_inv n h0 (poseStepH (halloc h0 (hread h0 r)).2) hstep
    (sp (hread (halloc h0 (hread h0 r)).1 (halloc h0 (hread h0 r)).2))
    ((none, none), (halloc h0 (hread h0 r)).1) base1 base2
  rcases hsc : (List.foldl (poseStepH (halloc h0 (hread h0 r)).2)
      ((none, none), (halloc h0 (hread h0 r)).1)
      (sp (hread (halloc h0 (hread h0 r)).1 (halloc h0 (hread h0 r)).2))).1.2
    with _ | min_tf
  · exact hfold
  · dsimp only
    have hrm : n ≤ (halloc h0 (hread h0 r)).2 := by
      simp [halloc]
      omega
    set st := List.foldl (poseStepH (halloc h0 (hread h0 r)).2)
      ((none, none), (halloc h0 (hread h0 r)).1)
      (sp (hread (halloc h0 (hread h0 r)).1 (halloc h0 (hread h0 r)).2)) with hst
    have h3len : n ≤ (hwrite st.2 (halloc h0 (hread h0 r)).2
        (applyTF min_tf (hread st.2 (halloc h0 (hread h0 r)).2))).length := by
      rw [length_hwrite]
      exact hfold.1
    have h3pres : Pres n h0 (hwrite st.2 (halloc h0 (hread h0 r)).2
        (applyTF min_tf (hread st.2 (halloc h0 (hread h0 r)).2))) :=
      pres_trans hfold.2 (pres_write hrm _)
    have hstep2 : ∀ (s : (TF × ℚ) × Heap) (a : ℚ),
        n ≤ s.2.length → Pres n h0 s.2 →
        n ≤ ((rotStepH zrot (halloc h0 (hread h0 r)).2 s a)).2.length ∧
          Pres n h0 ((rotStepH zrot (halloc h0 (hread h0 r)).2 s a)).2 := by
      intro s a h1 h2
      rw [rotStepH_heap]
      exact copy_mutate_step s.2 _ _ h1 h2
    exact foldl_heap_inv n h0 (rotStepH zrot (halloc h0 (hread h0 r)).2) hstep2 thetas
      _ h3len h3pres

lemma _packageH_pres (sp : Mesh → List TF) (zrot : ℚ → M3) (tri : PSLG → List Face)
    (h0 : Heap) (r : ℕ) (bw tab d off : ℚ) (lims : V3) (n : ℕ) (hn : n ≤ h0.length) :
    n ≤ (_packageH sp zrot tri h0 r bw tab d off lims).2.length ∧
      Pres n h0 (_packageH sp zrot tri h0 r bw tab d off lims).2 ∧
      ∀ rr, (_packageH sp zrot tri h0 r bw tab d off lims).1 = Except.ok (some rr) →
        h0.length ≤ rr := by
  unfold _packageH
  dsimp only
  have base2 : Pres n h0 (halloc h0 (hread h0 r)).1 := pres_alloc hn _
  have hstage := _get_packaged_poseH_pres sp zrot (halloc h0 (hread h0 r)).1
    (halloc h0 (hread h0 r)).2 n (by simp [halloc]; omega)
  have hstageLen := _get_packaged_poseH_pres sp zrot (halloc h0 (hread h0 r)).1
    (halloc h0 (hread h0 r)).2 ((halloc h0 (hread h0 r)).1).length le_rfl
  rcases hpose : _get_packaged_poseH sp zrot (halloc h0 (hread h0 r)).1
      (halloc h0 (hread h0 r)).2 with ⟨res1, h1⟩
  rw [hpose] at hstage hstageLen
  dsimp only at hstage hstageLen
  rcases res1 with e | pose
  · refine ⟨hstage.1, pres_trans base2 hstage.2, ?_⟩
    intro rr hrr
    simp at hrr
  · dsimp only
    have hrm : n ≤ (halloc h0 (hread h0 r)).2 := by
      simp [halloc]
      omega
    set h2 := hwrite h1 (halloc h0 (hread h0 r)).2
      (applyTF pose (hread h1 (halloc h0 (hread h0 r)).2)) with hh2
    have h2len : n ≤ h2.length := by
      rw [hh2, length_hwrite]
      exact hstage.1
    have h2pres : Pres n h0 h2 := by
      rw [hh2]
      exact pres_trans (pres_trans base2 hstage.2) (pres_write hrm _)
    have h2lenfull : h0.length + 1 ≤ h2.length := by
      rw [hh2, length_hwrite]
      have := hstageLen.1
      simp [halloc] at this
      omega
    split_ifs with hext
    · refine ⟨h2len, h2pres, ?_⟩
      intro rr hrr
      simp at hrr
    · rcases hfc : findContact (hread h2 (halloc h0 (hread h0 r)).2) with _ | fi
      · refine ⟨h2len, h2pres, ?_⟩
        intro rr hrr
        simp at hrr
      · dsimp only [halloc]
        refine ⟨?_, ?_, ?_⟩
        · rw [length_hwrite]
          simp
          omega
        · refine pres_trans h2pres (pres_trans (pres_alloc h2len _)
            (pres_trans (pres_alloc (by simp; omega) _) (pres_write ?_ _)))
          simp
          omega
        · intro rr hrr
          simp at hrr
          omega

/-- The full frame property of the heap-level `package`: no pre-existing
    object is modified, and a successful result lives at a fresh reference. -/
lemma packageH_frame (sp : Mesh → List TF) (zrot : ℚ → M3) (tri : PSLG → List Face)
    (h : Heap) (r : ℕ) (cfg : Cfg) (rng : Rng) :
    Pres h.length h ((packageH sp zrot tri h r cfg rng).1.2) ∧
      ∀ rr, (packageH sp zrot tri h r cfg rng).1.1 = Except.ok (some rr) →
        h.length ≤ rr := by
  unfold packageH
  split_ifs with hw
  · dsimp only
    have := _packageH_pres sp zrot tri h r
      (cfg.min_border_width_pct + rng.src rng.pos *
        (cfg.max_border_width_pct - cfg.min_border_width_pct))
      (cfg.min_tab_height_pct + rng.src (rng.pos + 1) *
        (cfg.max_tab_height_pct - cfg.min_tab_height_pct))
      (cfg.min_depth + rng.src (rng.pos + 2) * (cfg.max_depth - cfg.min_depth))
      cfg.offset cfg.ext_limits h.length le_rfl
    exact ⟨this.2.1, this.2.2⟩
  · refine ⟨pres_refl _ _, ?_⟩
    intro rr hrr
    simp at hrr

/-! ### Bounding-box bounds and the cube's yaw search -/

lemma foldl_vmin_le : ∀ (vs : List V3) (acc : V3),
    ((vs.foldl vmin acc).x ≤ acc.x ∧ (vs.foldl vmin acc).y ≤ acc.y ∧
      (vs.foldl vmin acc).z ≤ acc.z) ∧
    ∀ v ∈ vs, (vs.foldl vmin acc).x ≤ v.x ∧ (vs.foldl vmin acc).y ≤ v.y ∧
      (vs.foldl vmin acc).z ≤ v.z := by
  intro vs
  induction vs with
  | nil =>
    intro acc
    exact ⟨⟨le_refl _, le_refl _, le_refl _⟩, by simp⟩
  | cons w ws ih =>
    intro acc
    rw [List.foldl_cons]
    rcases ih (vmin acc w) with ⟨⟨hx, hy, hz⟩, hmem⟩
    refine ⟨⟨le_trans hx (min_le_left _ _), le_trans hy (min_le_left _ _),
      le_trans hz (min_le_left _ _)⟩, ?_⟩
    intro v hv
    rcases List.mem_cons.mp hv with hveq | hv'
    · rw [hveq]
      exact ⟨le_trans hx (min_le_right _ _), le_trans hy (min_le_right _ _),
        le_trans hz (min_le_right _ _)⟩
    · exact hmem v hv'

lemma foldl_vmax_ge : ∀ (vs : List V3) (acc : V3),
    (acc.x ≤ (vs.foldl vmax acc).x ∧ acc.y ≤ (vs.foldl vmax acc).y ∧
      acc.z ≤ (vs.foldl vmax acc).z) ∧
    ∀ v ∈ vs, v.x ≤ (vs.foldl vmax acc).x ∧ v.y ≤ (vs.foldl vmax acc).y ∧
      v.z ≤ (vs.foldl vmax acc).z := by
  intro vs
  induction vs with
  | nil =>
    intro acc
    exact ⟨⟨le_refl _, le_refl _, le_refl _⟩, by simp⟩
  | cons w ws ih =>
    intro acc
    rw [List.foldl_cons]
    rcases ih (vmax acc w) with ⟨⟨hx, hy, hz⟩, hmem⟩
    refine ⟨⟨le_trans (le_max_left _ _) hx, le_trans (le_max_left _ _) hy,
      le_trans (le_max_left _ _) hz⟩, ?_⟩
    intro v hv
    rcases List.mem_cons.mp hv with hveq | hv'
    · rw [hveq]
      exact ⟨le_trans (le_max_right _ _) hx, le_trans (le_max_right _ _) hy,
        le_trans (le_max_right _ _) hz⟩
    · exact hmem v hv'

lemma lowerB_le {m : Mesh} {v : V3} (hv : v ∈ m.vertices) :
    (lowerB m).x ≤ v.x ∧ (lowerB m).y ≤ v.y ∧ (lowerB m).z ≤ v.z := by
  rcases m with ⟨vs, fs⟩
  rcases vs with _ | ⟨w, ws⟩
  · simp at hv
  · unfold lowerB
    dsimp only
    rcases List.mem_cons.mp hv with hveq | hv'
    · rw [hveq]
      exact (foldl_vmin_le ws w).1
    · exact (foldl_vmin_le ws w).2 v hv'

lemma upperB_ge {m : Mesh} {v : V3} (hv : v ∈ m.vertices) :
    v.x ≤ (upperB m).x ∧ v.y ≤ (upperB m).y ∧ v.z ≤ (upperB m).z := by
  rcases m with ⟨vs, fs⟩
  rcases vs with _ | ⟨w, ws⟩
  · simp at hv
  · unfold upperB
    dsimp only
    rcases List.mem_cons.mp hv with hveq | hv'
    · rw [hveq]
      exact (foldl_vmax_ge ws w).1
    · exact (foldl_vmax_ge ws w).2 v hv'

/-- Any vertex-pair x difference bounds the x extent from below. -/
lemma extents_x_ge {m : Mesh} {v w : V3} (hv : v ∈ m.vertices)
    (hw : w ∈ m.vertices) : v.x - w.x ≤ (extentsOf m).x := by
  have h1 := (upperB_ge hv).1
  have h2 := (lowerB_le hw).1
  unfold extentsOf
  dsimp only
  linarith

section CubeAnalysis

attribute [local semireducible] Rat.add Rat.mul Rat.inv Rat.sub Rat.ofScientific

set_option maxRecDepth 10000

/-- After any yaw rotation about z (cosine/sine `c`, `s`), the posed cube's
    x extent is at least 1, so the strict-improvement test of the yaw loop
    never fires on the unit cube. -/
lemma cube_xext_ge (c s : ℚ) (h : c ^ 2 + s ^ 2 = 1) :
    1 ≤ (extentsOf (applyTF ⟨zRotM c s, ⟨0, 0, 0⟩⟩
      (applyTF ⟨M3.id, ⟨0, 0, hf⟩⟩ unitCube))).x := by
  have himg : ∀ v ∈ unitCube.vertices,
      (TF.mk (zRotM c s) ⟨0, 0, 0⟩).apply ((TF.mk M3.id ⟨0, 0, hf⟩).apply v) ∈
        (applyTF ⟨zRotM c s, ⟨0, 0, 0⟩⟩ (applyTF ⟨M3.id, ⟨0, 0, hf⟩⟩ unitCube)).vertices := by
    intro v hv
    simp only [applyTF, List.mem_map]
    exact ⟨(TF.mk M3.id ⟨0, 0, hf⟩).apply v, ⟨v, hv, rfl⟩, rfl⟩
  have hm0 : (⟨-hf, -hf, -hf⟩ : V3) ∈ unitCube.vertices := by decide
  have hm1 : (⟨hf, -hf, -hf⟩ : V3) ∈ unitCube.vertices := by decide
  have hm2 : (⟨hf, hf, -hf⟩ : V3) ∈ unitCube.vertices := by decide
  have hm3 : (⟨-hf, hf, -hf⟩ : V3) ∈ unitCube.vertices := by decide
  have hx0 : ((TF.mk (zRotM c s) ⟨0, 0, 0⟩).apply
      ((TF.mk M3.id ⟨0, 0, hf⟩).apply ⟨-hf, -hf, -hf⟩)).x = -c/2 + s/2 := by
    simp [TF.apply, M3.mulV, zRotM, M3.id, hf]
    ring
  have hx1 : ((TF.mk (zRotM c s) ⟨0, 0, 0⟩).apply
      ((TF.mk M3.id ⟨0, 0, hf⟩).apply ⟨hf, -hf, -hf⟩)).x = c/2 + s/2 := by
    simp [TF.apply, M3.mulV, zRotM, M3.id, hf]
    ring
  have hx2 : ((TF.mk (zRotM c s) ⟨0, 0, 0⟩).apply
      ((TF.mk M3.id ⟨0, 0, hf⟩).apply ⟨hf, hf, -hf⟩)).x = c/2 - s/2 := by
    simp [TF.apply, M3.mulV, zRotM, M3.id, hf]
    ring
  have hx3 : ((TF.mk (zRotM c s) ⟨0, 0, 0⟩).apply
      ((TF.mk M3.id ⟨0, 0, hf⟩).apply ⟨-hf, hf, -hf⟩)).x = -c/2 - s/2 := by
    simp [TF.apply, M3.mulV, zRotM, M3.id, hf]
    ring
  have hsq : 1 ≤ (c + s) ^ 2 ∨ 1 ≤ (c - s) ^ 2 := by
    by_contra hcon
    push_neg at hcon
    nlinarith [hcon.1, hcon.2]
  rcases hsq with h1 | h1
  · rcases le_or_lt 0 (c + s) with hpos | hneg
    · have hge : 1 ≤ c + s := by nlinarith
      have hd := extents_x_ge (himg _ hm1) (himg _ hm3)
      rw [hx1, hx3] at hd
      linarith
    · have hge : 1 ≤ -(c + s) := by nlinarith
      have hd := extents_x_ge (himg _ hm3) (himg _ hm1)
      rw [hx1, hx3] at hd
      linarith
  · rcases le_or_lt 0 (c - s) with hpos | hneg
    · have hge : 1 ≤ c - s := by nlinarith
      have hd := extents_x_ge (himg _ hm2) (himg _ hm0)
      rw [hx2, hx0] at hd
      linarith
    · have hge : 1 ≤ -(c - s) := by nlinarith
      have hd := extents_x_ge (himg _ hm0) (himg _ hm2)
      rw [hx2, hx0] at hd
      linarith

/-- The identity instance of the rotation collaborator satisfies the
    z-rotation contract. -/
lemma zrotId_isZRot : ∀ th : ℚ, IsZRot (zrotId th) := by
  intro th
  refine ⟨1, 0, by norm_num, ?_⟩
  show M3.id = zRotM 1 0
  decide

/-- For any contract-satisfying rotation collaborator, the packaged pose of
    the unit cube is the canonical resting pose (the yaw loop never improves
    on the identity). -/
lemma cube_pose_general (zrot : ℚ → M3) (hz : ∀ th, IsZRot (zrot th)) :
    _get_packaged_pose cubePoses zrot unitCube =
      Except.ok (TF.comp TF.id ⟨M3.id, ⟨0, 0, hf⟩⟩) := by
  rw [_get_packaged_pose_cons cubePoses zrot unitCube ⟨M3.id, ⟨0, 0, hf⟩⟩ [] rfl]
  have hsm : scanMin (zExtAfter unitCube) (⟨M3.id, ⟨0, 0, hf⟩⟩ : TF) [] =
      (⟨M3.id, ⟨0, 0, hf⟩⟩ : TF) := rfl
  rw [hsm, rotSearch_eq]
  dsimp only
  have hconst : scanMin (xExtAfter (applyTF ⟨M3.id, ⟨0, 0, hf⟩⟩ unitCube)) TF.id
      (thetas.map (fun th => TF.mk (zrot th) ⟨0, 0, 0⟩)) = TF.id := by
    apply scanMin_const
    intro rot hrot
    rcases List.mem_map.mp hrot with ⟨th, _, rfl⟩
    rcases hz th with ⟨c, s, hcs, hA⟩
    have hid : xExtAfter (applyTF ⟨M3.id, ⟨0, 0, hf⟩⟩ unitCube) TF.id = 1 := by
      rw [xExtAfter, applyTF_id]
      decide
    rw [hid, xExtAfter, hA]
    have h1 := cube_xext_ge c s hcs
    linarith
  rw [hconst]

/-- For any contract-satisfying rotation collaborator, the scenario run
    produces exactly `cubePackaged`. -/
lemma cube_package_general (zrot : ℚ → M3) (hz : ∀ th, IsZRot (zrot th)) :
    (package cubePoses zrot triConst unitCube cfgCube rng0).1 =
      Except.ok (some cubePackaged) := by
  rw [package_watertight_eq cubePoses zrot triConst unitCube cfgCube rng0 (by decide)]
  dsimp only
  rw [_package_congr_pose cubePoses cubePoses zrot zrotId triConst unitCube _ _ _ _ _
    (by rw [cube_pose_general zrot hz, cube_pose_general zrotId zrotId_isZRot])]
  have h2 := cube_run_eq
  rw [package_watertight_eq cubePoses zrotId triConst unitCube cfgCube rng0 (by decide)] at h2
  exact h2

end CubeAnalysis

/-! ### The claims -/

section Claims

attribute [local semireducible] Rat.add Rat.mul Rat.inv Rat.sub Rat.ofScientific

set_option maxRecDepth 10000

/-- C1: for every watertight input mesh with valid face indices, and for every
    behaviour of the external collaborators in which the triangulation meets
    its §4.4 interface contract, whenever `package` returns a mesh that mesh
    is watertight (every undirected edge shared by exactly two faces) and
    well-formed (every face index valid into the emitted vertex sequence); the
    only other outcomes are the explicit rejection `none` or a raised error —
    never a malformed mesh. -/
theorem C1_package_never_malformed
    (sp : Mesh → List TF) (zrot : ℚ → M3) (tri : PSLG → List Face)
    (m : Mesh) (cfg : Cfg) (r : Rng)
    (hwm : isWatertight m = true) (hvm : validMesh m = true)
    (htri : ∀ p, TriContract (tri p)) :
    ∀ res, (package sp zrot tri m cfg r).1 = Except.ok (some res) →
      isWatertight res = true ∧ validMesh res = true := by
  intro res hres
  rw [package_watertight_eq sp zrot tri m cfg r hwm] at hres
  dsimp only at hres
  rcases _package_ok_some hres with ⟨pose, i, p, hfc, hfaces, hlen⟩
  rcases findContact_some hfc with ⟨hi, hpred, _⟩
  have hfeq : (applyTF pose m).faces = m.faces := rfl
  rw [hfeq] at hi hpred
  obtain ⟨hab, hbc, hac⟩ := contactPred_distinct hpred
  obtain ⟨hTl, hTc⟩ := htri p
  have hmain := assembled_spec m.faces i m.vertices.length (tri p)
    (validMesh_iff.mp hvm) (isWatertight_iff.mp hwm) hi hab hbc hac hTl hTc
  constructor
  · rw [isWatertight_iff, hfaces]
    exact hmain.1
  · rw [validMesh_iff, hfaces, hlen]
    exact hmain.2

theorem C1_package_never_malformed_witness :
    isWatertight cubePackaged = true ∧ validMesh cubePackaged = true :=
  C1_package_never_malformed cubePoses zrotId triConst unitCube cfgCube rng0
    (by decide) (by decide)
    (fun p => show TriContract
      [⟨0, 1, 6⟩, ⟨0, 6, 4⟩, ⟨1, 2, 5⟩, ⟨1, 5, 6⟩, ⟨2, 3, 5⟩, ⟨3, 4, 5⟩, ⟨3, 0, 4⟩]
      by decide)
    cubePackaged cube_run_eq

/-- C2 (counterexample): the unit-cube scenario run — canonical resting pose,
    contract-satisfying triangulation, degenerate sampled ranges — returns a
    watertight mesh with x extent exactly 1.2, but its minimum z is not -0.03
    within any reasonable tolerance: the final recentring at the volume
    centroid (line 193) displaces it by ≈ 0.48. -/
theorem C2_min_z_counterexample :
    (package cubePoses zrotId triConst unitCube cfgCube rng0).1 =
        Except.ok (some cubePackaged) ∧
      (extentsOf cubePackaged).x = 6/5 ∧
      isWatertight cubePackaged = true ∧
      ¬(lowerB cubePackaged).z = -3/100 ∧
      1/10 < |(lowerB cubePackaged).z + 3/100| := by
  obtain ⟨h1, h2, h3, h4, h5⟩ := cubePackaged_facts
  refine ⟨cube_run_eq, h1, h3, ?_, ?_⟩
  · rw [h5]
    norm_num
  · rw [h5]
    have habs : (-3/100 - 499351/1036200 + 3/100 : ℚ) = -(499351/1036200) := by ring
    rw [habs, abs_neg, abs_of_pos (by norm_num)]
    norm_num

/-- C2 (amended): in the unit-cube scenario, for every contract-satisfying
    rotation model, `package` returns a watertight, well-formed mesh whose
    bounding-box x extent is exactly 1.2 and z extent exactly 1.03; its
    minimum z equals -0.03 minus the height of the pre-recentring assembly's
    center of mass (exactly -3/100 - 499351/1036200 ≈ -0.512): -0.03 is the
    minimum z only before the final recentring translation of line 193. -/
theorem C2_cube_scenario_amended (zrot : ℚ → M3) (hz : ∀ th, IsZRot (zrot th)) :
    (package cubePoses zrot triConst unitCube cfgCube rng0).1 =
        Except.ok (some cubePackaged) ∧
      (extentsOf cubePackaged).x = 6/5 ∧
      (extentsOf cubePackaged).z = 103/100 ∧
      isWatertight cubePackaged = true ∧ validMesh cubePackaged = true ∧
      (lowerB cubePackaged).z = -3/100 - 499351/1036200 := by
  obtain ⟨h1, h2, h3, h4, h5⟩ := cubePackaged_facts
  exact ⟨cube_package_general zrot hz, h1, h2, h3, h4, h5⟩

theorem C2_cube_scenario_amended_witness :
    (package cubePoses zrotId triConst unitCube cfgCube rng0).1 =
        Except.ok (some cubePackaged) ∧
      (extentsOf cubePackaged).x = 6/5 ∧
      (extentsOf cubePackaged).z = 103/100 ∧
      isWatertight cubePackaged = true ∧ validMesh cubePackaged = true ∧
      (lowerB cubePackaged).z = -3/100 - 499351/1036200 :=
  C2_cube_scenario_amended zrotId zrotId_isZRot

/-- C3: if any configured extent limit is strictly smaller than the posed
    solid's extent on that axis, `package` returns the rejection `none` rather
    than raising — for every random state (hence every sampled border, tab,
    depth combination) and for every triangulator: the check precedes any
    extrusion or triangulation work, whose collaborator is never consulted. -/
theorem C3_extent_rejection
    (sp : Mesh → List TF) (zrot : ℚ → M3) (tri : PSLG → List Face)
    (m : Mesh) (cfg : Cfg) (r : Rng) (pose : TF)
    (hwm : isWatertight m = true)
    (hp : _get_packaged_pose sp zrot m = Except.ok pose)
    (hext : cfg.ext_limits.x < (extentsOf (applyTF pose m)).x ∨
      cfg.ext_limits.y < (extentsOf (applyTF pose m)).y ∨
      cfg.ext_limits.z < (extentsOf (applyTF pose m)).z) :
    (package sp zrot tri m cfg r).1 = Except.ok none := by
  rw [package_watertight_eq sp zrot tri m cfg r hwm]
  exact _package_reject sp zrot tri m _ _ _ _ _ pose hp hext

theorem C3_extent_rejection_witness :
    (package cubePoses zrotId triConst unitCube cfgTight rng0).1 = Except.ok none :=
  C3_extent_rejection cubePoses zrotId triConst unitCube cfgTight rng0
    ⟨M3.id, ⟨0, 0, hf⟩⟩ (by decide) (by decide) (Or.inl (by decide))

/-- C4: on a nonempty enumeration, the stable-pose scan selects a pose whose
    vertical extent is minimal among all enumerated poses, breaking ties by
    the first-enumerated pose (each strictly earlier pose has strictly larger
    vertical extent, reflecting the strict `<` comparison of the full linear
    scan); the selected pose is the one `_get_packaged_pose` composes with the
    yaw rotation. -/
theorem C4_minimal_height_pose (m : Mesh) (t : TF) (ts : List TF) :
    ∃ sel, (minHeightScan m (t :: ts)).2 = some sel ∧
      (∀ sp zrot, sp m = t :: ts → ∃ rot,
        _get_packaged_pose sp zrot m = Except.ok (TF.comp rot sel)) ∧
      ∃ j, ∃ hj : j < (t :: ts).length,
        sel = (t :: ts).get ⟨j, hj⟩ ∧
        (∀ tf ∈ t :: ts, zExtAfter m sel ≤ zExtAfter m tf) ∧
        ∀ tf ∈ (t :: ts).take j, zExtAfter m sel < zExtAfter m tf := by
  rcases scanMin_spec (zExtAfter m) ts t with ⟨j, hj, hres, hmin, hstrict⟩
  refine ⟨scanMin (zExtAfter m) t ts, by rw [minHeightScan_eq], ?_, j, hj, hres, hmin, hstrict⟩
  intro sp zrot hsp
  exact ⟨_, _get_packaged_pose_cons sp zrot m t ts hsp⟩

theorem C4_minimal_height_pose_witness :
    ∃ sel, (minHeightScan unitCube (⟨M3.id, ⟨0, 0, hf⟩⟩ :: [])).2 = some sel ∧
      (∀ sp zrot, sp unitCube = ⟨M3.id, ⟨0, 0, hf⟩⟩ :: [] → ∃ rot,
        _get_packaged_pose sp zrot unitCube = Except.ok (TF.comp rot sel)) ∧
      ∃ j, ∃ hj : j < ((⟨M3.id, ⟨0, 0, hf⟩⟩ : TF) :: []).length,
        sel = ((⟨M3.id, ⟨0, 0, hf⟩⟩ : TF) :: []).get ⟨j, hj⟩ ∧
        (∀ tf ∈ (⟨M3.id, ⟨0, 0, hf⟩⟩ : TF) :: [],
          zExtAfter unitCube sel ≤ zExtAfter unitCube tf) ∧
        ∀ tf ∈ ((⟨M3.id, ⟨0, 0, hf⟩⟩ : TF) :: []).take j,
          zExtAfter unitCube sel < zExtAfter unitCube tf :=
  C4_minimal_height_pose unitCube ⟨M3.id, ⟨0, 0, hf⟩⟩ []

/-- C5: the yaw search samples exactly the 32 angles 0, 0.1, ..., 3.1 (those
    `k/10` with `k/10 < pi`, stepping by 0.1 from 0), never returns a rotation
    whose x extent exceeds the identity rotation's, lands on the first
    candidate attaining the minimum (every strictly earlier candidate,
    including the identity seed, has strictly larger x extent — the strict `<`
    update), and falls back to the identity when no sampled angle strictly
    improves the x extent. -/
theorem C5_yaw_monotone_first_found (posed : Mesh) (zrot : ℚ → M3) :
    (thetas = (List.range 32).map (fun k => (k : ℚ) / 10) ∧
      ∀ k : ℕ, ((k : ℝ) / 10 < Real.pi ↔ k < 32)) ∧
    xExtAfter posed (rotSearch posed (thetas.map (fun th => TF.mk (zrot th) ⟨0, 0, 0⟩))).1 ≤
      xExtAfter posed TF.id ∧
    (∃ j, ∃ hj : j < (TF.id :: thetas.map (fun th => TF.mk (zrot th) ⟨0, 0, 0⟩)).length,
      (rotSearch posed (thetas.map (fun th => TF.mk (zrot th) ⟨0, 0, 0⟩))).1 =
        (TF.id :: thetas.map (fun th => TF.mk (zrot th) ⟨0, 0, 0⟩)).get ⟨j, hj⟩ ∧
      (∀ rot ∈ TF.id :: thetas.map (fun th => TF.mk (zrot th) ⟨0, 0, 0⟩),
        xExtAfter posed (rotSearch posed (thetas.map (fun th => TF.mk (zrot th) ⟨0, 0, 0⟩))).1 ≤
          xExtAfter posed rot) ∧
      ∀ rot ∈ (TF.id :: thetas.map (fun th => TF.mk (zrot th) ⟨0, 0, 0⟩)).take j,
        xExtAfter posed (rotSearch posed (thetas.map (fun th => TF.mk (zrot th) ⟨0, 0, 0⟩))).1 <
          xExtAfter posed rot) ∧
    ((∀ rot ∈ thetas.map (fun th => TF.mk (zrot th) ⟨0, 0, 0⟩),
        ¬xExtAfter posed rot < xExtAfter posed TF.id) →
      (rotSearch posed (thetas.map (fun th => TF.mk (zrot th) ⟨0, 0, 0⟩))).1 = TF.id) := by
  have hid : (extentsOf posed).x = xExtAfter posed TF.id := by
    rw [xExtAfter, applyTF_id]
  refine ⟨⟨rfl, thetas_while_pi⟩, ?_⟩
  rw [rotSearch_eq]
  dsimp only
  rcases scanMin_spec (xExtAfter posed)
    (thetas.map (fun th => TF.mk (zrot th) ⟨0, 0, 0⟩)) TF.id with ⟨j, hj, hres, hmin, hstrict⟩
  refine ⟨hmin TF.id (List.mem_cons_self _ _), ⟨j, hj, hres, hmin, hstrict⟩, ?_⟩
  intro hnone
  exact scanMin_const (xExtAfter posed) _ TF.id hnone

theorem C5_yaw_monotone_first_found_witness :
    xExtAfter unitCube
        (rotSearch unitCube (thetas.map (fun th => TF.mk (zrotId th) ⟨0, 0, 0⟩))).1 ≤
      xExtAfter unitCube TF.id :=
  (C5_yaw_monotone_first_found unitCube zrotId).2.1

/-- C6: the contact-face locator selects the first face, in face-iteration
    order, with a vertex whose |z| < 1e-12 and a downward (negative z) face
    normal — every earlier face fails the test; and when no face qualifies,
    `_package` raises the fatal "Malformed mesh" error for every triangulator
    (no new geometry is consulted or emitted), returning neither a mesh nor
    the rejection value. -/
theorem C6_contact_first_or_fatal
    (sp : Mesh → List TF) (zrot : ℚ → M3) (tri : PSLG → List Face)
    (m : Mesh) (bw tab d off : ℚ) (lims : V3) (pose : TF)
    (hp : _get_packaged_pose sp zrot m = Except.ok pose)
    (hext : ¬((extentsOf (applyTF pose m)).x > lims.x ∨
      (extentsOf (applyTF pose m)).y > lims.y ∨
      (extentsOf (applyTF pose m)).z > lims.z)) :
    (∀ i, findContact (applyTF pose m) = some i →
      i < m.faces.length ∧
        contactPred (applyTF pose m) (m.faces.getD i ⟨0, 0, 0⟩) = true ∧
        ∀ j < i, contactPred (applyTF pose m) (m.faces.getD j ⟨0, 0, 0⟩) = false) ∧
    (findContact (applyTF pose m) = none →
      _package sp zrot tri m bw tab d off lims = Except.error "Malformed mesh") := by
  constructor
  · intro i hfc
    exact findContact_some hfc
  · intro hfc
    exact _package_malformed sp zrot tri m bw tab d off lims pose hp hext hfc

theorem C6_contact_first_or_fatal_witness :
    _package floatingPose zrotId triConst unitCube (1/10) (1/10) (1/50) (1/100)
      ⟨10, 10, 10⟩ = Except.error "Malformed mesh" :=
  (C6_contact_first_or_fatal floatingPose zrotId triConst unitCube (1/10) (1/10)
    (1/50) (1/100) ⟨10, 10, 10⟩ ⟨M3.id, ⟨0, 0, 1⟩⟩ (by decide) (by decide)).2 (by decide)

/-- C7: on a non-watertight input `package` raises the fatal precondition
    error — not a result, rejection, or partial mesh — and the check precedes
    all sampling and geometric work: the random state is returned unchanged
    and no collaborator is consulted. -/
theorem C7_watertight_precondition
    (sp : Mesh → List TF) (zrot : ℚ → M3) (tri : PSLG → List Face)
    (m : Mesh) (cfg : Cfg) (r : Rng)
    (h : isWatertight m = false) :
    package sp zrot tri m cfg r =
      (Except.error "Must have a watertight mesh to package it!", r) :=
  package_not_watertight sp zrot tri m cfg r h

theorem C7_watertight_precondition_witness :
    package cubePoses zrotId triConst openTri cfgCube rng0 =
      (Except.error "Must have a watertight mesh to package it!", rng0) :=
  C7_watertight_precondition cubePoses zrotId triConst openTri cfgCube rng0 (by decide)

/-- C8: `package` never mutates its input mesh object: in the heap model of
    the object graph, after the call every pre-existing object — in particular
    the caller's mesh, vertices and faces included — reads exactly as before,
    whether the call returns a mesh reference, the rejection, or raises; and a
    returned mesh lives at a freshly allocated reference (all transformations
    are applied to private copies). -/
theorem C8_input_not_mutated
    (sp : Mesh → List TF) (zrot : ℚ → M3) (tri : PSLG → List Face)
    (h : Heap) (r : ℕ) (cfg : Cfg) (rng : Rng) :
    (∀ j, j < h.length →
      hread ((packageH sp zrot tri h r cfg rng).1.2) j = hread h j) ∧
    ∀ rr, (packageH sp zrot tri h r cfg rng).1.1 = Except.ok (some rr) →
      h.length ≤ rr := by
  have hp := packageH_frame sp zrot tri h r cfg rng
  exact ⟨hp.1, hp.2⟩

theorem C8_input_not_mutated_witness :
    hread ((packageH cubePoses zrotId triConst [unitCube] 0 cfgCube rng0).1.2) 0 =
      hread [unitCube] 0 :=
  (C8_input_not_mutated cubePoses zrotId triConst [unitCube] 0 cfgCube rng0).1 0
    (by decide)

/-- C9: a watertight input draws exactly three uniform samples, in the fixed
    order border-width pct (stream position `pos`), tab-height pct (`pos+1`),
    depth (`pos+2`), before any feasibility check: the call equals `_package`
    on those three samples and the state advanced by exactly three draws —
    whatever `_package` returns or raises; a non-watertight input draws
    nothing (the state is returned unchanged). -/
theorem C9_exactly_three_draws
    (sp : Mesh → List TF) (zrot : ℚ → M3) (tri : PSLG → List Face)
    (m : Mesh) (cfg : Cfg) (r : Rng) :
    (isWatertight m = true →
      package sp zrot tri m cfg r =
        (_package sp zrot tri m
          (cfg.min_border_width_pct + r.src r.pos *
            (cfg.max_border_width_pct - cfg.min_border_width_pct))
          (cfg.min_tab_height_pct + r.src (r.pos + 1) *
            (cfg.max_tab_height_pct - cfg.min_tab_height_pct))
          (cfg.min_depth + r.src (r.pos + 2) * (cfg.max_depth - cfg.min_depth))
          cfg.offset cfg.ext_limits,
         ⟨r.src, r.pos + 3⟩)) ∧
    (isWatertight m = false → (package sp zrot tri m cfg r).2 = r) := by
  constructor
  · intro h
    exact package_watertight_eq sp zrot tri m cfg r h
  · intro h
    rw [package_not_watertight sp zrot tri m cfg r h]

theorem C9_exactly_three_draws_witness :
    (package cubePoses zrotId triConst unitCube cfgCube rng0).2.pos = rng0.pos + 3 := by
  rw [(C9_exactly_three_draws cubePoses zrotId triConst unitCube cfgCube rng0).1
    (by decide)]

/-- C10: if the stable-pose enumeration returns no pose, the minimal-height
    selection leaves `min_tf = None` and `mesh.apply_transform(None)` raises:
    `package` fails with that unhandled error instead of returning the
    rejection value — at least one stable pose is an unstated precondition. -/
theorem C10_empty_pose_enumeration
    (sp : Mesh → List TF) (zrot : ℚ → M3) (tri : PSLG → List Face)
    (m : Mesh) (cfg : Cfg) (r : Rng)
    (hwm : isWatertight m = true) (hsp : sp m = []) :
    (package sp zrot tri m cfg r).1 = Except.error "apply_transform of None" := by
  rw [package_watertight_eq sp zrot tri m cfg r hwm]
  exact _package_err sp zrot tri m _ _ _ _ _ _ (_get_packaged_pose_empty sp zrot m hsp)

theorem C10_empty_pose_enumeration_witness :
    (package noPoses zrotId triConst unitCube cfgCube rng0).1 =
      Except.error "apply_transform of None" :=
  C10_empty_pose_enumeration noPoses zrotId triConst unitCube cfgCube rng0
    (by decide) rfl

end Claims

end ThingsetPackager
